import Mathlib

/-!
# Verification of the Redis best-practices knowledge base

A shallow embedding of the `redis_best_practices` Python package
(`knowledge/__init__.py`, `tools.py`, `server.py`, and the section
assignment of `build.py`).  Python strings are modelled as `List Char`
(the corpus is ASCII; `lower`, `strip`, `split` and the `\s` and `\w`
regex classes are modelled at ASCII scope).  Python dicts, which
preserve insertion order, are modelled as association lists; dict
assignment replaces the value in place for an existing key and appends
a new key at the end, exactly as CPython does.  Every regex used by the
source is hand-compiled into an explicit scanner whose comment states
the regex and justifies the compilation (in particular where greedy or
lazy backtracking can be shown to collapse to a single deterministic
choice).
-/

namespace RedisBP

/-- Shorthand: the characters of a string literal. -/
def strL (s : String) : List Char := s.data

/-- The apostrophe character (U+0027), kept as a named constant. -/
def sq : Char := Char.ofNat 39

/-- The backtick character (U+0060), kept as a named constant. -/
def btick : Char := Char.ofNat 96

/-- Python `str.isspace` / regex `\s` at ASCII scope:
space, tab, newline, vertical tab, form feed, carriage return. -/
def isPySpace (c : Char) : Bool := c = ' ' || (9 ≤ c.toNat && c.toNat ≤ 13)

/-- Python regex `\w` at ASCII scope: letters, digits, underscore. -/
def isWordChar (c : Char) : Bool := c.isAlphanum || c = '_'

/-- Python `str.lower` at ASCII scope. -/
def pyLower (s : List Char) : List Char := s.map Char.toLower

/-- Python `str.strip()`: remove leading and trailing whitespace. -/
def pyStrip (s : List Char) : List Char :=
  ((s.dropWhile isPySpace).reverse.dropWhile isPySpace).reverse

/-- Worker for `pySplitWs`; `acc` is the current word reversed. -/
def pySplitWsAux : List Char → List Char → List (List Char)
  | [], acc => if acc.isEmpty then [] else [acc.reverse]
  | c :: t, acc =>
      if isPySpace c then
        if acc.isEmpty then pySplitWsAux t [] else acc.reverse :: pySplitWsAux t []
      else pySplitWsAux t (c :: acc)

/-- Python `str.split()` with no argument: split on runs of whitespace,
dropping empty pieces. -/
def pySplitWs (s : List Char) : List (List Char) := pySplitWsAux s []

/-- Python `needle in hay` on strings: contiguous-substring test. -/
def isSubstr (n : List Char) : List Char → Bool
  | [] => n.isEmpty
  | c :: t => n.isPrefixOf (c :: t) || isSubstr n t

/-- First-match lookup in an insertion-ordered dict. -/
def dictGet {β : Type} : List (List Char × β) → List Char → Option β
  | [], _ => none
  | (k0, v) :: t, k => if k0 = k then some v else dictGet t k

/-- Python dict assignment `d[k] = v`: replace in place if the key
exists, else append at the end. -/
def dictSet {β : Type} : List (List Char × β) → List Char → β → List (List Char × β)
  | [], k, v => [(k, v)]
  | (k0, v0) :: t, k, v => if k0 = k then (k0, v) :: t else (k0, v0) :: dictSet t k v

/-- `d.setdefault(k, []).extend(vs)` pattern used by the source:
append `vs` to the list stored at `k`, creating the key if absent. -/
def dictAppendList {β : Type} : List (List Char × List β) → List Char → List β →
    List (List Char × List β)
  | [], k, vs => [(k, vs)]
  | (k0, v0) :: t, k, vs =>
      if k0 = k then (k0, v0 ++ vs) :: t else (k0, v0) :: dictAppendList t k vs

/-- Python `str(n)` for a natural number. -/
def natStr (n : Nat) : List Char := (Nat.repr n).data

/-- Strict lexicographic order on strings by code point
(Python `<` on `str`). -/
def lexLt : List Char → List Char → Bool
  | [], [] => false
  | [], _ :: _ => true
  | _ :: _, [] => false
  | a :: xs, b :: ys => if a < b then true else if b < a then false else lexLt xs ys

/-- Non-strict lexicographic order on strings by code point. -/
def lexLe : List Char → List Char → Bool
  | [], _ => true
  | _ :: _, [] => false
  | a :: xs, b :: ys => if a < b then true else if b < a then false else lexLe xs ys

/-- Stable insertion used by `pySortedStr`: a new element is placed
before the first element `y` with `x ≤ y`; since elements are inserted
from the right (`foldr`), equal elements keep their original order,
matching Python's stable `sorted`. -/
def insLex (x : List Char) : List (List Char) → List (List Char)
  | [] => [x]
  | y :: ys => if lexLe x y then x :: y :: ys else y :: insLex x ys

/-- Python `sorted` on a list of strings (ascending, stable). -/
def pySortedStr (l : List (List Char)) : List (List Char) := l.foldr insLex []

/-! ## Data model (`knowledge/__init__.py` dataclasses) -/

/-- A reference link to documentation (`Reference`). -/
structure Reference where
  title : List Char
  url : List Char
deriving DecidableEq

/-- A code example with metadata (`CodeExample`). -/
structure CodeExample where
  title : List Char
  description : List Char
  code : List Char
  language : List Char := strL "python"
  notes : List (List Char) := []
  references : List Reference := []
deriving DecidableEq

/-- An anti-pattern to avoid (`AntiPattern`). -/
structure AntiPattern where
  title : List Char
  reason : List Char
  bad_code : List Char
  good_code : List Char
  language : List Char := strL "python"
  category : List Char := []
deriving DecidableEq

/-- A single best practice rule (`Rule`).  The Python field `prefix`
is called `pfx` here (`prefix` is reserved in Lean). -/
structure Rule where
  pfx : List Char
  title : List Char
  impact : List Char
  impact_description : List Char
  tags : List (List Char)
  content : List Char
  summary : List Char := []
  section_number : Nat := 0
deriving DecidableEq

/-- `Rule.to_markdown`: the lines list built by the source, joined
with a newline. -/
def to_markdown (r : Rule) : List Char :=
  List.intercalate (strL "\n")
    [strL "# " ++ r.title ++ strL "\n",
     strL "**Impact:** " ++ r.impact ++ strL " (" ++ r.impact_description ++ strL ")\n",
     strL "**Tags:** " ++ List.intercalate (strL ", ") r.tags ++ strL "\n",
     strL "---\n",
     r.content]

/-- A section containing multiple rules (`Section`).  The Python field
`prefix` is called `pfx` here. -/
structure Section where
  number : Nat
  name : List Char
  pfx : List Char
  impact : List Char
  description : List Char
  rules : List Rule := []
deriving DecidableEq

/-- The in-memory state of a `KnowledgeBase` after load: the four
mutable containers its request-handling methods can see. -/
structure KnowledgeBase where
  sections : List (List Char × Section)
  rules : List (List Char × Rule)
  rules_by_tag : List (List Char × List Rule)
  full_guide : List Char
deriving DecidableEq

/-- `self.rules.values()` in dict insertion order. -/
def ruleValues (kb : KnowledgeBase) : List Rule := kb.rules.map (·.2)

/-- `rule.prefix.split("-")[0]`: the leading token up to the first
dash (the whole string when it has no dash). -/
def splitFirstTok (s : List Char) : List Char := s.takeWhile (· ≠ '-')

/-! ## Load-time section assignment

`_load_rules` registers one successfully parsed rule: store it in the
rules dict, append it to each of its tag buckets, and, when
`rule.prefix.split("-")[0]` names a known section, append it to that
section's rule list and set its `section_number`.  Python appends the
*same object* everywhere and then mutates `section_number` on it, so
the pure translation computes the final rule first and stores it in
all three containers. -/
def registerRule (kb : KnowledgeBase) (rule : Rule) : KnowledgeBase :=
  let sp := splitFirstTok rule.pfx
  match dictGet kb.sections sp with
  | some s =>
      let rule' := { rule with section_number := s.number }
      { kb with
        rules := dictSet kb.rules rule.pfx rule',
        rules_by_tag := rule.tags.foldl (fun d t => dictAppendList d t [rule']) kb.rules_by_tag,
        sections := dictSet kb.sections sp { s with rules := s.rules ++ [rule'] } }
  | none =>
      { kb with
        rules := dictSet kb.rules rule.pfx rule,
        rules_by_tag := rule.tags.foldl (fun d t => dictAppendList d t [rule]) kb.rules_by_tag }

/-- The section-assignment of `build.py` (`main`, the compound-prefix
branch): take the first dash-separated token, but when the first two
tokens joined by a dash name a known section, prefer the compound. -/
def buildSectionPfx (sections : List (List Char × Section)) (pfx : List Char) : List Char :=
  let parts := pfx.splitOn '-'
  let sp := parts.headD []
  if 1 < parts.length then
    let compound := sp ++ strL "-" ++ (parts.drop 1).headD []
    if (dictGet sections compound).isSome then compound else sp
  else sp

/-! ## Topic lookup (`get_rule_by_topic`) -/

/-- The fixed ordered prefix list tried by `get_rule_by_topic`. -/
def commonPfxList : List (List Char) :=
  [strL "data-", strL "conn-", strL "ram-", strL "json-", strL "rqe-", strL "vector-",
   strL "semantic-cache-", strL "stream-", strL "cluster-", strL "security-", strL "observe-"]

/-- `KnowledgeBase.get_rule_by_topic`: exact dict lookup first, then
each known prefix prepended in order, first hit wins, else `None`. -/
def get_rule_by_topic (kb : KnowledgeBase) (topic : List Char) : Option Rule :=
  match dictGet kb.rules topic with
  | some r => some r
  | none => commonPfxList.findSome? (fun p => dictGet kb.rules (p ++ topic))

/-! ## Lexical search (`search_rules`) -/

/-- `set(s.split())` used for word-overlap scoring: the distinct
whitespace-separated words of `s`. -/
def wordSet (s : List Char) : List (List Char) := (pySplitWs s).dedup

/-- The per-tag score contributions of `search_rules`: the `for tag in
rule.tags` loop adds 3 for each tag containing the query substring and
2 for each tag whose lowercase form is one of the query's words. -/
def tagPoints (ql : List Char) (qw : List (List Char)) (tags : List (List Char)) : Nat :=
  tags.foldl
    (fun acc t =>
      acc + (if isSubstr ql (pyLower t) then 3 else 0)
          + (if pyLower t ∈ qw then 2 else 0)) 0

/-- The relevance score one rule receives in `search_rules` for the
lowered query `ql` with word set `qw`.  The Python score is a float
built from integer increments, so it is a `Nat` here. -/
def searchScore (ql : List Char) (qw : List (List Char)) (r : Rule) : Nat :=
  (if isSubstr ql (pyLower r.title) then 10 else 0)
  + 5 * ((qw.filter (fun w => w ∈ pySplitWs (pyLower r.title))).length)
  + tagPoints ql qw r.tags
  + (if isSubstr ql (pyLower r.content) then 1 else 0)
  + (if isSubstr ql (pyLower r.impact_description) then 2 else 0)

/-- The scored pairing of an arbitrary rule list: each rule in order,
paired with its score, zero scores dropped. -/
def scoredOf (ql : List Char) (qw : List (List Char)) (l : List Rule) :
    List (Nat × Rule) :=
  l.filterMap (fun r =>
    let s := searchScore ql qw r
    if 0 < s then some (s, r) else none)

/-- The `scored_rules` list of `search_rules`: rules in table order,
paired with their score, zero scores dropped. -/
def scoredRules (kb : KnowledgeBase) (ql : List Char) (qw : List (List Char)) :
    List (Nat × Rule) :=
  scoredOf ql qw (ruleValues kb)

/-- Stable insertion for the descending sort of `scored_rules`: a new
element is placed before the first element of score less than or equal
to its own; with `foldr` (insertion from the right) equal scores keep
their original order, matching Python's stable `list.sort` with
`reverse=True`. -/
def insScored (x : Nat × Rule) : List (Nat × Rule) → List (Nat × Rule)
  | [] => [x]
  | y :: ys => if y.1 ≤ x.1 then x :: y :: ys else y :: insScored x ys

/-- `scored_rules.sort(key=lambda x: x[0], reverse=True)` — a stable
descending sort on the score component. -/
def stableSortScored (l : List (Nat × Rule)) : List (Nat × Rule) := l.foldr insScored []

/-- `KnowledgeBase.search_rules`. -/
def search_rules (kb : KnowledgeBase) (query : List Char) : List Rule :=
  let ql := pyLower query
  let qw := wordSet ql
  (stableSortScored (scoredRules kb ql qw)).map (·.2)

/-- `KnowledgeBase.list_all_topics`: `sorted(self.rules.keys())`. -/
def list_all_topics (kb : KnowledgeBase) : List (List Char) :=
  pySortedStr (kb.rules.map (·.1))

/-! ## Section listing (`get_sections`) -/

/-- The fixed category-name → section-prefix alias table of
`get_sections`. -/
def category_map : List (List Char × List Char) :=
  [(strL "data", strL "data"), (strL "connection", strL "conn"),
   (strL "memory", strL "ram"), (strL "security", strL "security"),
   (strL "json", strL "json"), (strL "streams", strL "stream"),
   (strL "clustering", strL "cluster"), (strL "vector", strL "vector"),
   (strL "semantic-cache", strL "semantic-cache"),
   (strL "observability", strL "observe")]

/-- Stable insertion for the ascending sort of sections by ordinal
(`sorted(self.sections.values(), key=lambda s: s.number)`). -/
def insSection (x : Section) : List Section → List Section
  | [] => [x]
  | y :: ys => if x.number ≤ y.number then x :: y :: ys else y :: insSection x ys

/-- `sorted(sections, key=number)`: stable ascending sort. -/
def sortSections (l : List Section) : List Section := l.foldr insSection []

/-- `KnowledgeBase.get_sections`.  `category` is a `str | None`
argument; Python tests its truthiness, so `Some ""` behaves like
`None`. -/
def get_sections (kb : KnowledgeBase) (category : Option (List Char)) : List Section :=
  let sections := sortSections (kb.sections.map (·.2))
  match category with
  | none => sections
  | some c =>
      if c.isEmpty then sections
      else
        let p := (dictGet category_map c).getD c
        sections.filter (fun s => s.pfx = p)

/-! ## The frontmatter regex of `_parse_rule_file`

`re.match(r"^---\s*\n(.*?)\n---\s*\n(.*)$", content, re.DOTALL)`.

The subpattern `\s*\n` matches a whitespace run whose last character
is a newline; the greedy `\s*` prefers the run that ends at the *last*
newline inside the maximal whitespace run, and on failure backtracks
to earlier newlines.  The lazy `(.*?)` selects the *earliest* position
at which `\n---\s*\n` matches, and `(.*)$` under `re.DOTALL` always
matches the whole remainder, so no further backtracking can occur
after a closing marker is found. -/

/-- The candidate lengths-minus-one for `\s*\n` at the head of `s`:
the indices of newlines inside the maximal whitespace prefix, most
preferred (largest, i.e. greediest `\s*`) first. -/
def nlSplitCandidates (s : List Char) : List Nat :=
  let run := s.takeWhile isPySpace
  ((List.range run.length).filter (fun j => run.get? j = some '\n')).reverse

/-- Does `\n---\s*\n` match at the head of `s`? -/
def closeHere (s : List Char) : Bool :=
  match s with
  | '\n' :: '-' :: '-' :: '-' :: rest => !(nlSplitCandidates rest).isEmpty
  | _ => false

/-- The remainder after the greediest `\n---\s*\n` match at the head
of `s` (meaningful only when `closeHere s` holds). -/
def closeRest (s : List Char) : List Char :=
  match s with
  | '\n' :: '-' :: '-' :: '-' :: rest => rest.drop ((nlSplitCandidates rest).headD 0 + 1)
  | _ => []

/-- Scan for the earliest match of `\n---\s*\n` (the lazy `(.*?)`);
returns the consumed prefix (frontmatter group) and the remainder
(body group). -/
def findClosing : List Char → Option (List Char × List Char)
  | [] => none
  | c :: t =>
      if closeHere (c :: t) then some ([], closeRest (c :: t))
      else
        match findClosing t with
        | some (fm, body) => some (c :: fm, body)
        | none => none

/-- Try each opening `\s*\n` candidate, greediest first; `rest` is the
text after the initial `---`. -/
def tryOpenings : List Nat → List Char → Option (List Char × List Char)
  | [], _ => none
  | j :: js, rest =>
      match findClosing (rest.drop (j + 1)) with
      | some r => some r
      | none => tryOpenings js rest

/-- The whole frontmatter regex: `(frontmatter, body)` on a match. -/
def splitFm (content : List Char) : Option (List Char × List Char) :=
  match content with
  | '-' :: '-' :: '-' :: rest => tryOpenings (nlSplitCandidates rest) rest
  | _ => none

/-! ## The frontmatter field regexes

`re.search(r"title:\s*(.+)", fm)` (same shape for
`impactDescription:` and `tags:`): at the leftmost occurrence of the
literal key, the greedy `\s*` skips whitespace (newlines included) and
backtracks until `(.+)` can start on a character other than a newline;
`(.+)` then greedily takes the rest of that line.
`re.search(r"impact:\s*(\w+)", fm)`: here backtracking into the
whitespace run is impossible (`\s` and `\w` are disjoint), so the
match is simply the maximal word run after the whitespace run, when
non-empty.  In both cases a failed attempt resumes the scan at the
next character, i.e. at the next occurrence of the literal key. -/

/-- Backtracking tail of `\s*(.+)`: try start offsets `k` from the
greediest (the full whitespace run) downward; succeed on the first
offset whose character exists and is not a newline. -/
def dotPlusBt (s : List Char) : Nat → Option (List Char)
  | 0 =>
      match s with
      | [] => none
      | c :: v => if c = '\n' then none else some (c :: v.takeWhile (· ≠ '\n'))
  | k + 1 =>
      match s.drop (k + 1) with
      | [] => dotPlusBt s k
      | c :: v =>
          if c = '\n' then dotPlusBt s k
          else some (c :: v.takeWhile (· ≠ '\n'))

/-- `\s*(.+)` at the head of `s`. -/
def dotPlusAfterWs (s : List Char) : Option (List Char) :=
  dotPlusBt s (s.takeWhile isPySpace).length

/-- `re.search(key ++ "\s*(.+)", s)`: group 1 of the leftmost match. -/
def searchValue (key : List Char) : List Char → Option (List Char)
  | [] => none
  | c :: t =>
      if key.isPrefixOf (c :: t) then
        match dotPlusAfterWs ((c :: t).drop key.length) with
        | some v => some v
        | none => searchValue key t
      else searchValue key t

/-- `re.search(key ++ "\s*(\w+)", s)`: group 1 of the leftmost match. -/
def searchWordValue (key : List Char) : List Char → Option (List Char)
  | [] => none
  | c :: t =>
      if key.isPrefixOf (c :: t) then
        let w := (((c :: t).drop key.length).dropWhile isPySpace).takeWhile isWordChar
        if w.isEmpty then searchWordValue key t else some w
      else searchWordValue key t

/-! ## The summary regex

`re.search(r"##[^\n]+\n+([^\n#]+)", body)`: at an occurrence of `##`,
the greedy `[^\n]+` must take the whole rest of the line (giving back
a character would make `\n+` start on a non-newline) and the greedy
`\n+` must take every consecutive newline (giving one back would make
`[^\n#]+` start on a newline); the group is then the maximal run of
characters that are neither `#` nor newline, required non-empty.  On
failure the scan resumes one character further right. -/

/-- The tail of the summary pattern after the literal `##`. -/
def trySummaryAt (s : List Char) : Option (List Char) :=
  let t1 := s.takeWhile (· ≠ '\n')
  if t1.isEmpty then none
  else
    let s2 := s.drop t1.length
    let nls := s2.takeWhile (· = '\n')
    if nls.isEmpty then none
    else
      let u := (s2.drop nls.length).takeWhile (fun c => c ≠ '\n' && c ≠ '#')
      if u.isEmpty then none else some u

/-- Does `s` start with `##`? -/
def headIsHashHash : List Char → Bool
  | c1 :: c2 :: _ => c1 = '#' && c2 = '#'
  | _ => false

/-- The whole summary regex search over the body. -/
def searchSummary : List Char → Option (List Char)
  | [] => none
  | c :: t =>
      if headIsHashHash (c :: t) then
        match trySummaryAt (t.drop 1) with
        | some u => some u
        | none => searchSummary t
      else searchSummary t

/-- `KnowledgeBase._parse_rule_file`, with the file's stem passed in
as `pfx` (the filename is external input).  Returns `none` exactly
where the Python returns `None`; the Python never raises on any input
(every regex failure is checked), which the totality of this function
reflects. -/
def parse_rule_file (pfx : List Char) (content : List Char) : Option Rule :=
  match splitFm content with
  | none => none
  | some (frontmatter, body) =>
      match searchValue (strL "title:") frontmatter,
            searchWordValue (strL "impact:") frontmatter with
      | some tv, some iv =>
          some
            { pfx := pfx,
              title := pyStrip tv,
              impact := pyStrip iv,
              impact_description :=
                match searchValue (strL "impactDescription:") frontmatter with
                | some dv => pyStrip dv
                | none => [],
              tags :=
                match searchValue (strL "tags:") frontmatter with
                | some tg => (tg.splitOn ',').map pyStrip
                | none => [],
              content := body,
              summary :=
                match searchSummary body with
                | some sv => pyStrip sv
                | none => [],
              section_number := 0 }
      | _, _ => none

/-! ## The anti-pattern regexes (`get_anti_patterns`)

`r"\*\*Incorrect[^*]*\*\*[:\s]*([^\n]*)\n+```(\w+)\n(.*?)```"` with
`re.DOTALL` (and the same with `Correct`), found with `re.finditer`
(leftmost, non-overlapping, resuming after each match).

At an occurrence of the literal marker: the greedy `[^*]*` must take
the maximal non-`*` run and the next two characters must be `**`
(giving back a character would put a non-`*` where `*` is required).
The greedy `[:\s]*` can backtrack: offsets `k` into its maximal run
are tried largest first.  For each `k`, `([^\n]*)` must take the whole
rest of the line and `\n+` must take every consecutive newline (by the
argument given for the summary regex), the literal fence and a
non-empty `(\w+)` and a newline must follow, and the lazy `(.*?)`
selects everything up to the earliest closing fence. -/

/-- Does `s` start with three backticks? -/
def isFence3 (s : List Char) : Bool :=
  s.take 3 = [btick, btick, btick]

/-- Lazy `(.*?)` up to the earliest triple-backtick: the code group
and the remainder after the closing fence. -/
def splitAtFence : List Char → Option (List Char × List Char)
  | [] => none
  | c :: t =>
      if isFence3 (c :: t) then some ([], t.drop 2)
      else
        match splitAtFence t with
        | some (code, rest) => some (c :: code, rest)
        | none => none

/-- The anti-pattern tail for one fixed offset into the `[:\s]*` run:
`([^\n]*)\n+` fence `(\w+)` `\n` `(.*?)` fence.  Returns
(title group, language group, code group, remainder). -/
def patAtK (s4 : List Char) : Option (List Char × List Char × List Char × List Char) :=
  let t := s4.takeWhile (· ≠ '\n')
  let s5 := s4.drop t.length
  let nls := s5.takeWhile (· = '\n')
  if nls.isEmpty then none
  else
    let s6 := s5.drop nls.length
    if isFence3 s6 then
      let s7 := s6.drop 3
      let w := s7.takeWhile isWordChar
      if w.isEmpty then none
      else
        match s7.drop w.length with
        | '\n' :: s9 =>
            match splitAtFence s9 with
            | some (code, rest) => some (t, w, code, rest)
            | none => none
        | _ => none
    else none

/-- Backtracking over the `[:\s]*` offsets, greediest first. -/
def patTryK (s3 : List Char) : Nat → Option (List Char × List Char × List Char × List Char)
  | 0 => patAtK s3
  | k + 1 =>
      match patAtK (s3.drop (k + 1)) with
      | some r => some r
      | none => patTryK s3 k

/-- Attempt the whole anti-pattern regex at the head of `s` (which
the caller has checked starts with the literal `marker`). -/
def patMatchAt (marker s : List Char) :
    Option (List Char × List Char × List Char × List Char) :=
  let s1 := s.drop marker.length
  let nonstar := s1.takeWhile (· ≠ '*')
  match s1.drop nonstar.length with
  | '*' :: '*' :: s3 =>
      let run := s3.takeWhile (fun c => c = ':' || isPySpace c)
      patTryK s3 run.length
  | _ => none

/-- `re.finditer` for the anti-pattern regex: scan left to right,
resume after the end of each match.  `fuel` bounds the recursion
(each step consumes at least one character, so `s.length + 1`
suffices). -/
def findAllPat (marker : List Char) : Nat → List Char →
    List (List Char × List Char × List Char)
  | 0, _ => []
  | _, [] => []
  | fuel + 1, c :: t =>
      if marker.isPrefixOf (c :: t) then
        match patMatchAt marker (c :: t) with
        | some (ttl, lang, code, rest) => (ttl, lang, code) :: findAllPat marker fuel rest
        | none => findAllPat marker fuel t
      else findAllPat marker fuel t

/-- The `Incorrect` match list of a rule body. -/
def incMatches (content : List Char) : List (List Char × List Char × List Char) :=
  findAllPat (strL "**Incorrect") (content.length + 1) content

/-- The `Correct` match list of a rule body. -/
def corMatches (content : List Char) : List (List Char × List Char × List Char) :=
  findAllPat (strL "**Correct") (content.length + 1) content

/-- `self.sections.get(rule.prefix.split("-")[0], Section(0, "Other",
"", "", "")).name`. -/
def categoryOf (sections : List (List Char × Section)) (pfx : List Char) : List Char :=
  ((dictGet sections (splitFirstTok pfx)).getD
    { number := 0, name := strL "Other", pfx := [], impact := [],
      description := [], rules := [] }).name

/-- One `AntiPattern` built from a positional (Incorrect, Correct)
match pair, as in the `for inc, cor in zip(...)` loop. -/
def mkAntiPattern (r : Rule) (cat : List Char)
    (inc cor : List Char × List Char × List Char) : AntiPattern :=
  { title := if (pyStrip inc.1).isEmpty then r.title else pyStrip inc.1,
    reason := r.impact_description,
    bad_code := pyStrip inc.2.2,
    good_code := pyStrip cor.2.2,
    language := inc.2.1,
    category := cat }

/-- The anti-patterns extracted from one rule: the positional `zip` of
the Incorrect and Correct match lists (truncating to the shorter). -/
def antiPatternsOfRule (sections : List (List Char × Section)) (r : Rule) :
    List AntiPattern :=
  List.zipWith (mkAntiPattern r (categoryOf sections r.pfx))
    (incMatches r.content) (corMatches r.content)

/-- Should `get_anti_patterns` skip this rule for the given topic
filter?  `if topic:` is a Python truthiness test, so `Some ""` applies
no filter; the rule is skipped when the lowered topic occurs neither
in `rule.prefix` (not lowered by the source) nor in the lowered
space-join of the tags. -/
def apSkipsRule (topic : Option (List Char)) (r : Rule) : Bool :=
  match topic with
  | none => false
  | some t =>
      !t.isEmpty &&
        (let tl := pyLower t
         !isSubstr tl r.pfx &&
           !isSubstr tl (pyLower (List.intercalate (strL " ") r.tags)))

/-- `KnowledgeBase.get_anti_patterns`: the category → anti-pattern
dict, built in rule-table order.  The source guards on both match
lists being non-empty before creating the category bucket and then
appends every zipped pair; a zip of two non-empty lists is non-empty
and the zip of lists with an empty one is empty, so guarding on the
zip being non-empty is equivalent. -/
def get_anti_patterns (kb : KnowledgeBase) (topic : Option (List Char)) :
    List (List Char × List AntiPattern) :=
  (ruleValues kb).foldl
    (fun d r =>
      if apSkipsRule topic r then d
      else
        let aps := antiPatternsOfRule kb.sections r
        if aps.isEmpty then d
        else dictAppendList d (categoryOf kb.sections r.pfx) aps) []

/-! ## Code examples (`get_code_example`)

The code-block regex `rf"```{language}\n(.*?)```"` with `re.DOTALL`
treats the language as a literal (the server only passes plain words);
the fallback is `r"```\w*\n(.*?)```"`.  The reference regex is
`r"Reference:\s*\[([^\]]+)\]\(([^)]+)\)"`: after the literal key the
greedy `\s*` cannot backtrack (whitespace is not `[`), and each greedy
`[^\]]+` / `[^)]+` must be maximal and followed by its closing
literal. -/

/-- `re.search` for a fixed fence opener followed by a lazy group and
a closing fence. -/
def searchFenced (opener : List Char) : List Char → Option (List Char)
  | [] => none
  | c :: t =>
      if opener.isPrefixOf (c :: t) then
        match splitAtFence ((c :: t).drop opener.length) with
        | some (code, _) => some code
        | none => searchFenced opener t
      else searchFenced opener t

/-- `re.search(r"```\w*\n(.*?)```", s)`: any-language fallback. -/
def searchFencedAny : List Char → Option (List Char)
  | [] => none
  | c :: t =>
      if isFence3 (c :: t) then
        let s := (c :: t).drop 3
        let w := s.takeWhile isWordChar
        match s.drop w.length with
        | '\n' :: rest =>
            match splitAtFence rest with
            | some (code, _) => some code
            | none => searchFencedAny t
        | _ => searchFencedAny t
      else searchFencedAny t

/-- One attempted reference match just after the literal
`Reference:`. -/
def refMatchAt (s : List Char) : Option (List Char × List Char × List Char) :=
  match s.dropWhile isPySpace with
  | '[' :: s2 =>
      let ttl := s2.takeWhile (· ≠ ']')
      if ttl.isEmpty then none
      else
        match s2.drop ttl.length with
        | ']' :: '(' :: s3 =>
            let url := s3.takeWhile (· ≠ ')')
            if url.isEmpty then none
            else
              match s3.drop url.length with
              | ')' :: rest => some (ttl, url, rest)
              | _ => none
        | _ => none
  | _ => none

/-- `re.finditer` for the reference regex (fueled like
`findAllPat`). -/
def findRefs : Nat → List Char → List Reference
  | 0, _ => []
  | _, [] => []
  | fuel + 1, c :: t =>
      if (strL "Reference:").isPrefixOf (c :: t) then
        match refMatchAt ((c :: t).drop 10) with
        | some (ttl, url, rest) => { title := ttl, url := url } :: findRefs fuel rest
        | none => findRefs fuel t
      else findRefs fuel t

/-- The fixed pattern-name → rule-prefix alias table of
`get_code_example`. -/
def pattern_map : List (List Char × List Char) :=
  [(strL "connection-pool", strL "conn-pooling"),
   (strL "pipeline", strL "conn-pipelining"),
   (strL "pipelining", strL "conn-pipelining"),
   (strL "transaction", strL "conn-pipelining"),
   (strL "pub-sub", strL "stream-choosing-pattern"),
   (strL "pubsub", strL "stream-choosing-pattern"),
   (strL "stream-consumer", strL "stream-choosing-pattern"),
   (strL "streams", strL "stream-choosing-pattern"),
   (strL "rate-limiter", strL "data-choose-structure"),
   (strL "cache-aside", strL "ram-ttl"),
   (strL "session-store", strL "data-choose-structure"),
   (strL "leaderboard", strL "data-choose-structure"),
   (strL "vector-search", strL "vector-algorithm-choice"),
   (strL "semantic-cache", strL "semantic-cache-best-practices"),
   (strL "key-naming", strL "data-key-naming"),
   (strL "hash-tags", strL "cluster-hash-tags")]

/-- `KnowledgeBase.get_code_example`. -/
def get_code_example (kb : KnowledgeBase) (pat language : List Char) :
    Option CodeExample :=
  let pattern_normalized :=
    ((pyLower pat).map (fun c => if c = '_' then '-' else c)).map
      (fun c => if c = ' ' then '-' else c)
  let rule_pfx := (dictGet pattern_map pattern_normalized).getD pattern_normalized
  match get_rule_by_topic kb rule_pfx with
  | none => none
  | some rule =>
      let opener := [btick, btick, btick] ++ language ++ ['\n']
      let found :=
        match searchFenced opener rule.content with
        | some code => some code
        | none => searchFencedAny rule.content
      match found with
      | none => none
      | some code =>
          some
            { title := rule.title,
              description :=
                if rule.summary.isEmpty then rule.impact_description else rule.summary,
              code := pyStrip code,
              language := language,
              notes := [],
              references := findRefs (rule.content.length + 1) rule.content }

/-- `KnowledgeBase.list_code_examples`: a fixed literal list. -/
def list_code_examples : List (List Char) :=
  [strL "connection-pool", strL "pipeline", strL "pub-sub", strL "stream-consumer",
   strL "rate-limiter", strL "cache-aside", strL "session-store", strL "leaderboard",
   strL "vector-search", strL "semantic-cache", strL "key-naming", strL "hash-tags"]

/-- `KnowledgeBase.get_full_guide`. -/
def get_full_guide (kb : KnowledgeBase) : List Char := kb.full_guide

/-! ## Tool layer (`tools.py`)

The tool functions only assemble markdown text from knowledge-base
query results.  Apostrophes and backticks inside the Python f-strings
are written via the `sq` and `btick` constants. -/

/-- `topic.lower().strip().replace(" ", "-").replace("_", "-")` in
`get_best_practice`. -/
def normalizeTopic (t : List Char) : List Char :=
  ((pyStrip (pyLower t)).map (fun c => if c = ' ' then '-' else c)).map
    (fun c => if c = '_' then '-' else c)

/-- The fallback message of `get_best_practice` listing all topics. -/
def topicNotFoundMsg (kb : KnowledgeBase) (topic : List Char) : List Char :=
  strL "Topic " ++ [sq] ++ topic ++ [sq] ++ strL " not found.\n\nAvailable topics:\n" ++
    List.intercalate (strL "\n") ((list_all_topics kb).map (fun t => strL "  - " ++ t)) ++
    strL "\n\nTip: Use " ++ [sq] ++ strL "search_best_practices" ++ [sq] ++
    strL " to search by keyword, or " ++ [sq] ++ strL "list_topics" ++ [sq] ++
    strL " to browse by category."

/-- `tools.get_best_practice`: normalized topic lookup, then a fuzzy
search on the raw topic whose best match is returned, then the
not-found message. -/
def get_best_practice (kb : KnowledgeBase) (topic : List Char) : List Char :=
  let topic_normalized := normalizeTopic topic
  match get_rule_by_topic kb topic_normalized with
  | some rule => to_markdown rule
  | none =>
      match search_rules kb topic with
      | rule :: _ => to_markdown rule
      | [] => topicNotFoundMsg kb topic

/-- The impact badge of `tools.list_topics`. -/
def impactBadge (impact : List Char) : List Char :=
  if impact = strL "HIGH" then strL "🔴"
  else if impact = strL "MEDIUM" then strL "🟡"
  else strL "🟢"

/-- The lines one section contributes in `tools.list_topics`. -/
def listTopicsSectionLines (s : Section) : List (List Char) :=
  [strL "\n## " ++ natStr s.number ++ strL ". " ++ s.name ++ strL " (" ++
     impactBadge s.impact ++ strL " " ++ s.impact ++ strL ")",
   strL "*" ++ s.description ++ strL "*\n"] ++
    s.rules.map (fun r => strL "  - " ++ [btick] ++ r.pfx ++ [btick] ++ strL " - " ++ r.title)

/-- `tools.list_topics`. -/
def list_topics (kb : KnowledgeBase) (category : Option (List Char)) : List Char :=
  List.intercalate (strL "\n")
    ([strL "# Redis Best Practices Topics\n"] ++
      (get_sections kb category).flatMap listTopicsSectionLines)

/-- The no-results message of `tools.search_best_practices`. -/
def noResultsMsg (query : List Char) : List Char :=
  strL "No results found for " ++ [sq] ++ query ++ [sq] ++
    strL ".\n\nTry:\n- Different keywords (e.g., " ++ [sq] ++ strL "cache" ++ [sq] ++
    strL " instead of " ++ [sq] ++ strL "caching" ++ [sq] ++
    strL ")\n- Broader terms (e.g., " ++ [sq] ++ strL "memory" ++ [sq] ++
    strL " instead of " ++ [sq] ++ strL "maxmemory" ++ [sq] ++
    strL ")\n- Use " ++ [sq] ++ strL "list_topics" ++ [sq] ++
    strL " to browse available topics"

/-- The six lines per result of `tools.search_best_practices`
(`enumerate(matches[:5], 1)`). -/
def searchResultLines : Nat → List Rule → List (List Char)
  | _, [] => []
  | i, r :: rs =>
      [strL "## " ++ natStr i ++ strL ". " ++ r.title,
       strL "**Impact:** " ++ r.impact ++ strL " - " ++ r.impact_description,
       strL "**Tags:** " ++ List.intercalate (strL ", ") r.tags ++ strL "\n",
       r.summary,
       strL "\n*Use " ++ [btick] ++ strL "get_best_practice(" ++ [sq] ++ r.pfx ++ [sq] ++
         strL ")" ++ [btick] ++ strL " for full details.*\n",
       strL "---\n"] ++ searchResultLines (i + 1) rs

/-- `tools.search_best_practices`. -/
def search_best_practices (kb : KnowledgeBase) (query : List Char) : List Char :=
  if (pyStrip query).isEmpty then strL "Please provide a search query."
  else
    match search_rules kb query with
    | [] => noResultsMsg query
    | m :: ms =>
        List.intercalate (strL "\n")
          ([strL "# Search Results for " ++ [sq] ++ query ++ [sq] ++ strL "\n",
            strL "Found " ++ natStr (m :: ms).length ++ strL " matching practice(s):\n"] ++
            searchResultLines 1 ((m :: ms).take 5))

/-- The lines one anti-pattern contributes in
`tools.get_anti_patterns`. -/
def antiPatternLines (p : AntiPattern) : List (List Char) :=
  [strL "### ❌ " ++ p.title,
   strL "**Why it" ++ [sq] ++ strL "s bad:** " ++ p.reason,
   strL "\n" ++ [btick, btick, btick] ++ p.language,
   p.bad_code,
   [btick, btick, btick] ++ strL "\n",
   strL "**Instead, do this:**\n",
   [btick, btick, btick] ++ p.language,
   p.good_code,
   [btick, btick, btick] ++ strL "\n"]

/-- `tools.get_anti_patterns` (the tool wrapper).  `if topic:` is a
truthiness test, so `Some ""` adds no filter line. -/
def get_anti_patterns_tool (kb : KnowledgeBase) (topic : Option (List Char)) : List Char :=
  let anti_patterns := get_anti_patterns kb topic
  List.intercalate (strL "\n")
    ([strL "# Redis Anti-Patterns to Avoid\n"] ++
      (match topic with
       | some t => if t.isEmpty then [] else [strL "*Filtered by: " ++ t ++ strL "*\n"]
       | none => []) ++
      anti_patterns.flatMap (fun cp =>
        (strL "\n## " ++ cp.1 ++ strL "\n") :: cp.2.flatMap antiPatternLines))

/-- The not-found message of `tools.get_code_example`. -/
def codeExampleNotFoundMsg (pat language : List Char) : List Char :=
  strL "No code example found for pattern " ++ [sq] ++ pat ++ [sq] ++ strL " in " ++
    language ++ strL ".\n\nAvailable patterns:\n" ++
    List.intercalate (strL "\n") (list_code_examples.map (fun p => strL "  - " ++ p)) ++
    strL "\n\nAvailable languages: python, javascript, java"

/-- `tools.get_code_example` (the tool wrapper). -/
def get_code_example_tool (kb : KnowledgeBase) (pat language : List Char) : List Char :=
  match get_code_example kb pat language with
  | none => codeExampleNotFoundMsg pat language
  | some ex =>
      List.intercalate (strL "\n")
        ([strL "# " ++ ex.title ++ strL "\n",
          strL "**Pattern:** " ++ pat,
          strL "**Language:** " ++ language ++ strL "\n",
          ex.description,
          strL "\n" ++ [btick, btick, btick] ++ language,
          ex.code,
          [btick, btick, btick] ++ strL "\n"] ++
          (if ex.notes.isEmpty then []
           else strL "## Notes\n" :: ex.notes.map (fun n => strL "- " ++ n)) ++
          (if ex.references.isEmpty then []
           else strL "\n## References\n" ::
             ex.references.map (fun r =>
               strL "- [" ++ r.title ++ strL "](" ++ r.url ++ strL ")")))

/-- `tools.get_full_guide` (the tool wrapper). -/
def get_full_guide_tool (kb : KnowledgeBase) : List Char := get_full_guide kb

/-! ## Server dispatch (`server.py`) -/

/-- The string-valued arguments a tool call may carry
(`arguments.get(...)` with the defaults used by
`handle_call_tool`). -/
structure ToolArgs where
  topic : Option (List Char) := none
  category : Option (List Char) := none
  query : Option (List Char) := none
  pat : Option (List Char) := none
  language : Option (List Char) := none
deriving DecidableEq

/-- `server.handle_call_tool` restricted to its dispatch: the mapping
from tool name and arguments to the produced text.  The surrounding
`try/except` never fires in this model because every operation is
total. -/
def handle_call_tool (kb : KnowledgeBase) (name : List Char) (args : ToolArgs) :
    List Char :=
  if name = strL "get_best_practice" then get_best_practice kb (args.topic.getD [])
  else if name = strL "list_topics" then list_topics kb args.category
  else if name = strL "search_best_practices" then
    search_best_practices kb (args.query.getD [])
  else if name = strL "get_anti_patterns" then get_anti_patterns_tool kb args.topic
  else if name = strL "get_code_example" then
    get_code_example_tool kb (args.pat.getD []) (args.language.getD (strL "python"))
  else if name = strL "get_full_guide" then get_full_guide_tool kb
  else strL "Unknown tool: " ++ name

/-! ## State-passing forms of the request operations

The Python request-handling methods are translated statement by
statement; none of their statements assigns to `self` or mutates a
structure reachable from it (they build fresh lists, dicts and
dataclass instances), so each state-passing form returns the
knowledge base unchanged.  A method that did mutate would have to
return an updated state here, as `registerRule` (load time) does. -/

/-- State-passing `get_rule_by_topic`. -/
def get_rule_by_topic_st (kb : KnowledgeBase) (topic : List Char) :
    Option Rule × KnowledgeBase := (get_rule_by_topic kb topic, kb)

/-- State-passing `search_rules`. -/
def search_rules_st (kb : KnowledgeBase) (query : List Char) :
    List Rule × KnowledgeBase := (search_rules kb query, kb)

/-- State-passing `list_all_topics`. -/
def list_all_topics_st (kb : KnowledgeBase) :
    List (List Char) × KnowledgeBase := (list_all_topics kb, kb)

/-- State-passing `get_sections`. -/
def get_sections_st (kb : KnowledgeBase) (category : Option (List Char)) :
    List Section × KnowledgeBase := (get_sections kb category, kb)

/-- State-passing `get_anti_patterns`. -/
def get_anti_patterns_st (kb : KnowledgeBase) (topic : Option (List Char)) :
    List (List Char × List AntiPattern) × KnowledgeBase := (get_anti_patterns kb topic, kb)

/-- State-passing `get_code_example`. -/
def get_code_example_st (kb : KnowledgeBase) (pat language : List Char) :
    Option CodeExample × KnowledgeBase := (get_code_example kb pat language, kb)

/-- State-passing `get_full_guide`. -/
def get_full_guide_st (kb : KnowledgeBase) : List Char × KnowledgeBase :=
  (get_full_guide kb, kb)

/-- State-passing `tools.get_best_practice`. -/
def get_best_practice_st (kb : KnowledgeBase) (topic : List Char) :
    List Char × KnowledgeBase := (get_best_practice kb topic, kb)

/-- State-passing `tools.list_topics`. -/
def list_topics_st (kb : KnowledgeBase) (category : Option (List Char)) :
    List Char × KnowledgeBase := (list_topics kb category, kb)

/-- State-passing `tools.search_best_practices`. -/
def search_best_practices_st (kb : KnowledgeBase) (query : List Char) :
    List Char × KnowledgeBase := (search_best_practices kb query, kb)

/-- State-passing `tools.get_anti_patterns`. -/
def get_anti_patterns_tool_st (kb : KnowledgeBase) (topic : Option (List Char)) :
    List Char × KnowledgeBase := (get_anti_patterns_tool kb topic, kb)

/-- State-passing `tools.get_code_example`. -/
def get_code_example_tool_st (kb : KnowledgeBase) (pat language : List Char) :
    List Char × KnowledgeBase := (get_code_example_tool kb pat language, kb)

/-- State-passing `tools.get_full_guide`. -/
def get_full_guide_tool_st (kb : KnowledgeBase) : List Char × KnowledgeBase :=
  (get_full_guide_tool kb, kb)

/-- State-passing `server.handle_call_tool`. -/
def handle_call_tool_st (kb : KnowledgeBase) (name : List Char) (args : ToolArgs) :
    List Char × KnowledgeBase := (handle_call_tool kb name args, kb)

/-! ## Specification-side definitions

Two claims are refinement statements: they describe an algorithm in
words that differ from the code.  The following definitions follow the
specification's words (not the source) and exist only to be compared
against the source-derived definitions above. -/

/-- The search score exactly as the specification sentence reads
(claim C3): a flat `+3` if the query substring appears in (some) tag
and a flat `+2` if (some) whole query word exactly equals a tag —
where the source instead accumulates `+3` and `+2` per matching
tag. -/
def specClaimScore (ql : List Char) (qw : List (List Char)) (r : Rule) : Nat :=
  (if isSubstr ql (pyLower r.title) then 10 else 0)
  + 5 * ((qw.filter (fun w => w ∈ pySplitWs (pyLower r.title))).length)
  + (if r.tags.any (fun t => isSubstr ql (pyLower t)) then 3 else 0)
  + (if r.tags.any (fun t => pyLower t ∈ qw) then 2 else 0)
  + (if isSubstr ql (pyLower r.content) then 1 else 0)
  + (if isSubstr ql (pyLower r.impact_description) then 2 else 0)

/-- A markdown heading line in the sense of claim C8's wording: a
line starting with a hash. -/
def isHeadingLine : List Char → Bool
  | c :: _ => c = '#'
  | [] => false

/-- A blank line: empty or whitespace only. -/
def isBlankLine (l : List Char) : Bool := (pyStrip l).isEmpty

/-- Scan consecutive line pairs for claim C8's summary. -/
def claimSummaryScan : List (List Char) → List Char
  | a :: b :: t =>
      if isHeadingLine a && !isBlankLine b && !isHeadingLine b then pyStrip b
      else claimSummaryScan (b :: t)
  | _ => []

/-- The summary exactly as claim C8 reads: the first line of body
text that immediately follows a markdown heading line and is itself
not blank and not a heading (trimmed); empty when no such line
exists. -/
def claimSummary (body : List Char) : List Char :=
  claimSummaryScan (body.splitOn '\n')

/-! ## Concrete instances used by the claims -/

/-- A canonical rule document: an opening marker line, a frontmatter
block, a closing marker line, then the body (the text
`---` newline `fm` newline `---` newline `body`). -/
def fmDoc (fm body : List Char) : List Char :=
  '-' :: '-' :: '-' :: '\n' :: (fm ++ '\n' :: '-' :: '-' :: '-' :: '\n' :: body)

/-- C1: the Semantic Caching section as the registry intends it. -/
def c1Section : Section :=
  { number := 7, name := strL "Semantic Caching", pfx := strL "semantic-cache",
    impact := strL "MEDIUM", description := strL "LangCache and semantic caching patterns",
    rules := [] }

/-- C1: a knowledge base whose registry holds the compound-prefix
section. -/
def c1Kb : KnowledgeBase :=
  { sections := [(strL "semantic-cache", c1Section)], rules := [],
    rules_by_tag := [], full_guide := [] }

/-- C1: a parsed rule whose prefix starts with `semantic-cache-`. -/
def c1Rule : Rule :=
  { pfx := strL "semantic-cache-best-practices",
    title := strL "Semantic Cache Best Practices", impact := strL "MEDIUM",
    impact_description := [], tags := [], content := strL "body", summary := [],
    section_number := 0 }

/-- C2, scenario A: query `ool`, rule matched in the title only. -/
def c2r1A : Rule :=
  { pfx := strL "conn-pooling", title := strL "Pooling", impact := strL "HIGH",
    impact_description := [], tags := [], content := strL "x", summary := [],
    section_number := 0 }

/-- C2, scenario A: rule matched in the body only. -/
def c2r2A : Rule :=
  { pfx := strL "data-other", title := strL "Zzz", impact := strL "HIGH",
    impact_description := [], tags := [], content := strL "cool stuff", summary := [],
    section_number := 0 }

/-- C2, scenario B: query `a b`, rule matched in the title only. -/
def c2r1B : Rule :=
  { pfx := strL "conn-x", title := strL "xa bx", impact := strL "HIGH",
    impact_description := [], tags := [], content := strL "q", summary := [],
    section_number := 0 }

/-- C2, scenario B: rule whose tags each equal a whole query word. -/
def c2r2B : Rule :=
  { pfx := strL "data-y", title := strL "zz", impact := strL "HIGH",
    impact_description := [],
    tags := [strL "a", strL "b", strL "c", strL "d", strL "e"],
    content := strL "has a b here", summary := [], section_number := 0 }

/-- C3: a rule with three tags containing the query and the query in
its body (per-tag score 10, claim-worded score 4). -/
def c3rA : Rule :=
  { pfx := strL "data-a", title := strL "zz", impact := strL "HIGH",
    impact_description := [], tags := [strL "afo", strL "bfo", strL "cfo"],
    content := strL "fo", summary := [], section_number := 0 }

/-- C3: a rule with the query in its title (score 10 under both
readings). -/
def c3rB : Rule :=
  { pfx := strL "data-b", title := strL "xfo", impact := strL "HIGH",
    impact_description := [], tags := [], content := strL "zz", summary := [],
    section_number := 0 }

/-- C3: the two rules above in table order. -/
def c3Kb : KnowledgeBase :=
  { sections := [], rules := [(strL "data-a", c3rA), (strL "data-b", c3rB)],
    rules_by_tag := [], full_guide := [] }

/-- C3 witness: a rule that nowhere mentions the probe token. -/
def c3wRule : Rule :=
  { pfx := strL "conn-pooling", title := strL "Pooling", impact := strL "HIGH",
    impact_description := strL "fewer sockets", tags := [strL "conn"],
    content := strL "reuse connections", summary := [], section_number := 0 }

/-- C3 witness knowledge base. -/
def c3wKb : KnowledgeBase :=
  { sections := [], rules := [(strL "conn-pooling", c3wRule)],
    rules_by_tag := [], full_guide := [] }

/-- C4: the rule reachable as `conn-` ++ `pool`. -/
def c4Rule : Rule :=
  { pfx := strL "conn-pool", title := strL "Pooling", impact := strL "HIGH",
    impact_description := [], tags := [], content := strL "c", summary := [],
    section_number := 0 }

/-- C4: a knowledge base with a single prefixed key. -/
def c4Kb : KnowledgeBase :=
  { sections := [], rules := [(strL "conn-pool", c4Rule)],
    rules_by_tag := [], full_guide := [] }

/-- C5: a rule found by fuzzy search but not by topic lookup. -/
def c5Rule : Rule :=
  { pfx := strL "conn-pool", title := strL "Pool", impact := strL "HIGH",
    impact_description := strL "d", tags := [strL "t"], content := strL "c",
    summary := [], section_number := 0 }

/-- C5: its knowledge base. -/
def c5Kb : KnowledgeBase :=
  { sections := [], rules := [(strL "conn-pool", c5Rule)],
    rules_by_tag := [], full_guide := [] }

/-- C6/C8 witness frontmatter. -/
def c6Fm : List Char :=
  strL "title: Use Connection Pooling\nimpact: HIGH\nimpactDescription: prevents leaks\ntags: conn, pool , perf"

/-- C6/C8 witness body. -/
def c6Body : List Char := strL "## Why\n\nPooling reuses connections.\n\nMore text."

/-- C7: the owning section of the concrete anti-pattern rule. -/
def c7Section : Section :=
  { number := 3, name := strL "Connection & Performance", pfx := strL "conn",
    impact := strL "HIGH", description := strL "d", rules := [] }

/-- C7: a rule whose body holds exactly one Incorrect/fenced pair and
one Correct/fenced pair. -/
def c7Rule : Rule :=
  { pfx := strL "conn-pipelining", title := strL "Use Pipelining",
    impact := strL "HIGH", impact_description := strL "reduces RTTs", tags := [],
    content := strL "Intro.\n\n**Incorrect:**\n```python\nbad_code()\n```\n\n**Correct:**\n```python\ngood_code()\n```\n",
    summary := [], section_number := 3 }

/-- C7: its knowledge base. -/
def c7Kb : KnowledgeBase :=
  { sections := [(strL "conn", c7Section)],
    rules := [(strL "conn-pipelining", c7Rule)], rules_by_tag := [], full_guide := [] }

/-- C7: the single expected anti-pattern. -/
def c7AP : AntiPattern :=
  { title := strL "Use Pipelining", reason := strL "reduces RTTs",
    bad_code := strL "bad_code()", good_code := strL "good_code()",
    language := strL "python", category := strL "Connection & Performance" }

/-- C8: a body whose first text line is separated from the heading by
a blank line. -/
def c8Body : List Char := strL "## Head\n\nfoo"

/-- C8: the full document around `c8Body`. -/
def c8Doc : List Char := strL "---\ntitle: T\nimpact: HIGH\n---\n## Head\n\nfoo"

/-- C10: an arbitrary loaded rule. -/
def c10Rule : Rule :=
  { pfx := strL "ram-ttl", title := strL "Set TTLs", impact := strL "HIGH",
    impact_description := strL "bounds memory", tags := [strL "ttl"],
    content := strL "use expire", summary := [], section_number := 2 }

/-- C10: its knowledge base. -/
def c10Kb : KnowledgeBase :=
  { sections := [], rules := [(strL "ram-ttl", c10Rule)],
    rules_by_tag := [], full_guide := [] }

/-! ## Helper lemmas -/

/-- The empty string is a substring of everything. -/
theorem isSubstr_nil_left (h : List Char) : isSubstr [] h = true := by
  cases h <;> rfl

/-- Every string is a substring of itself. -/
theorem isSubstr_refl : ∀ x : List Char, isSubstr x x = true := by
  intro x
  cases x with
  | nil => rfl
  | cons c t =>
      have hpre : ∀ l : List Char, l.isPrefixOf l = true := by
        intro l
        induction l with
        | nil => rfl
        | cons a u ih => simp [List.isPrefixOf, ih]
      simp [isSubstr, hpre]

/-- `findSome?` agrees with the first element whose image is `some`. -/
theorem findSome?_eq_of_find?_isSome {α β : Type} (f : α → Option β) :
    ∀ (l : List α) (p : α),
      l.find? (fun x => (f x).isSome) = some p → l.findSome? f = f p := by
  intro l
  induction l with
  | nil => intro p h; simp [List.find?] at h
  | cons a t ih =>
      intro p h
      rcases hfa : f a with _ | b
      · have ha : (f a).isSome = false := by rw [hfa]; rfl
        rw [List.find?_cons] at h
        rw [ha] at h
        rw [List.findSome?_cons, hfa]
        exact ih p h
      · have ha : (f a).isSome = true := by rw [hfa]; rfl
        rw [List.find?_cons] at h
        rw [ha] at h
        cases h
        rw [List.findSome?_cons, hfa]

/-- `takeWhile` passes over a prefix all of whose elements satisfy the
predicate. -/
theorem takeWhile_append_all {p : Char → Bool} :
    ∀ {l1 : List Char} (l2 : List Char), (∀ c ∈ l1, p c = true) →
      (l1 ++ l2).takeWhile p = l1 ++ l2.takeWhile p := by
  intro l1
  induction l1 with
  | nil => intro l2 _; rfl
  | cons c t ih =>
      intro l2 h
      have hc : p c = true := h c (by simp)
      simp only [List.cons_append, List.takeWhile_cons, hc, if_true]
      rw [ih l2 (fun d hd => h d (by simp [hd]))]

/-- `takeWhile` stops at once when the head fails the predicate. -/
theorem takeWhile_cons_false {p : Char → Bool} {c : Char} (l : List Char)
    (h : p c = false) : (c :: l).takeWhile p = [] := by
  simp [List.takeWhile_cons, h]

/-- The filter of `range (n+1)` by a predicate holding only at `0`. -/
theorem range_filter_zero (p : Nat → Bool) (h0 : p 0 = true)
    (hs : ∀ j : Nat, p (j + 1) = false) :
    ∀ n : Nat, (List.range (n + 1)).filter p = [0] := by
  intro n
  induction n with
  | zero => simp [List.range_succ, h0]
  | succ m ih =>
      rw [List.range_succ, List.filter_append, ih]
      simp [hs m]

/-- Members of a stable scored insertion. -/
theorem mem_insScored {x y : Nat × Rule} :
    ∀ {l : List (Nat × Rule)}, y ∈ insScored x l ↔ y = x ∨ y ∈ l := by
  intro l
  induction l with
  | nil => simp [insScored]
  | cons z t ih =>
      by_cases h : z.1 ≤ x.1
      · simp [insScored, h, List.mem_cons]
      · simp [insScored, h, List.mem_cons, ih]
        tauto

/-- Inserting keeps the descending-by-score pairwise order. -/
theorem pairwise_insScored {x : Nat × Rule} :
    ∀ {l : List (Nat × Rule)},
      l.Pairwise (fun a b => b.1 ≤ a.1) →
      (insScored x l).Pairwise (fun a b => b.1 ≤ a.1) := by
  intro l
  induction l with
  | nil => intro _; simp [insScored]
  | cons z t ih =>
      intro h
      rcases List.pairwise_cons.mp h with ⟨hz, ht⟩
      by_cases hc : z.1 ≤ x.1
      · show List.Pairwise _ (if z.1 ≤ x.1 then x :: z :: t else z :: insScored x t)
        rw [if_pos hc]
        refine List.pairwise_cons.mpr ⟨?_, h⟩
        intro b hb
        rcases List.mem_cons.mp hb with rfl | hb
        · exact hc
        · exact le_trans (hz b hb) hc
      · show List.Pairwise _ (if z.1 ≤ x.1 then x :: z :: t else z :: insScored x t)
        rw [if_neg hc]
        refine List.pairwise_cons.mpr ⟨?_, ih ht⟩
        intro b hb
        rcases mem_insScored.mp hb with rfl | hb
        · exact le_of_lt (Nat.lt_of_not_le hc)
        · exact hz b hb

/-- Filtering a score class through a stable scored insertion. -/
theorem filter_insScored (x : Nat × Rule) (s : Nat) :
    ∀ l : List (Nat × Rule),
      (insScored x l).filter (fun p => p.1 = s) =
        if x.1 = s then x :: l.filter (fun p => p.1 = s)
        else l.filter (fun p => p.1 = s) := by
  intro l
  induction l with
  | nil => by_cases h : x.1 = s <;> simp [insScored, List.filter_cons, h]
  | cons z t ih =>
      by_cases hc : z.1 ≤ x.1
      · show (if z.1 ≤ x.1 then x :: z :: t else z :: insScored x t).filter _ = _
        rw [if_pos hc]
        by_cases hx : x.1 = s <;> by_cases hz : z.1 = s <;>
          simp [List.filter_cons, hx, hz]
      · show (if z.1 ≤ x.1 then x :: z :: t else z :: insScored x t).filter _ = _
        rw [if_neg hc]
        by_cases hx : x.1 = s
        · have hzs : ¬ (z.1 = s) := by
            have := Nat.lt_of_not_le hc
            omega
          simp [List.filter_cons, hzs, ih, hx]
        · by_cases hz : z.1 = s <;> simp [List.filter_cons, hz, ih, hx]

/-- The stable sort permutes nothing across score classes. -/
theorem filter_stableSortScored (s : Nat) :
    ∀ l : List (Nat × Rule),
      (stableSortScored l).filter (fun p => p.1 = s) = l.filter (fun p => p.1 = s) := by
  intro l
  induction l with
  | nil => rfl
  | cons a t ih =>
      show (insScored a (stableSortScored t)).filter _ = _
      rw [filter_insScored]
      by_cases ha : a.1 = s <;> simp [List.filter_cons, ha, ih]

/-- The stable sort output is descending by score. -/
theorem pairwise_stableSortScored :
    ∀ l : List (Nat × Rule),
      (stableSortScored l).Pairwise (fun a b => b.1 ≤ a.1) := by
  intro l
  induction l with
  | nil => exact List.Pairwise.nil
  | cons a t ih => exact pairwise_insScored ih

/-- Membership is preserved by the stable sort. -/
theorem mem_stableSortScored {y : Nat × Rule} :
    ∀ {l : List (Nat × Rule)}, y ∈ stableSortScored l ↔ y ∈ l := by
  intro l
  induction l with
  | nil => simp [stableSortScored]
  | cons a t ih =>
      show y ∈ insScored a (stableSortScored t) ↔ _
      rw [mem_insScored]
      simp [ih, List.mem_cons]

/-- A pair in the scored list carries the score of its rule, and that
score is positive. -/
theorem scoredOf_mem {ql : List Char} {qw : List (List Char)} {p : Nat × Rule} :
    ∀ {l : List Rule}, p ∈ scoredOf ql qw l →
      p.1 = searchScore ql qw p.2 ∧ 0 < p.1 := by
  intro l h
  rcases List.mem_filterMap.mp h with ⟨r, -, hf⟩
  simp only at hf
  split at hf
  · cases hf
    rename_i hs
    exact ⟨rfl, hs⟩
  · cases hf

/-- Filtering a positive score class out of the scored list recovers
the same-scored rules in their original order. -/
theorem filter_scoredOf (ql : List Char) (qw : List (List Char)) (s : Nat)
    (hs : 0 < s) :
    ∀ l : List Rule,
      (scoredOf ql qw l).filter (fun p => p.1 = s) =
        (l.filter (fun r => searchScore ql qw r = s)).map (fun r => (s, r)) := by
  intro l
  induction l with
  | nil => rfl
  | cons r t ih =>
      have hcons : scoredOf ql qw (r :: t) =
          (if 0 < searchScore ql qw r then [(searchScore ql qw r, r)] else []) ++
            scoredOf ql qw t := by
        by_cases h0 : 0 < searchScore ql qw r <;>
          simp [scoredOf, List.filterMap_cons, h0]
      rw [hcons]
      by_cases h0 : 0 < searchScore ql qw r
      · by_cases hse : searchScore ql qw r = s
        · simp [h0, hs, List.filter_append, List.filter_cons, hse, ih]
        · simp [h0, List.filter_append, List.filter_cons, hse, ih]
      · have hse : ¬ (searchScore ql qw r = s) := by omega
        simp [h0, List.filter_cons, hse, ih]

/-- The tag loop contributes nothing when no tag contains the query
and no tag is a query word. -/
theorem tagPoints_eq_zero (ql : List Char) (qw : List (List Char)) :
    ∀ (tags : List (List Char)),
      (∀ t ∈ tags, isSubstr ql (pyLower t) = false ∧ pyLower t ∉ qw) →
      tagPoints ql qw tags = 0 := by
  have aux : ∀ (tags : List (List Char)) (acc : Nat),
      (∀ t ∈ tags, isSubstr ql (pyLower t) = false ∧ pyLower t ∉ qw) →
      tags.foldl
        (fun acc t =>
          acc + (if isSubstr ql (pyLower t) then 3 else 0)
              + (if pyLower t ∈ qw then 2 else 0)) acc = acc := by
    intro tags
    induction tags with
    | nil => intro acc _; rfl
    | cons t ts ih =>
        intro acc h
        rcases h t (by simp) with ⟨h1, h2⟩
        rw [List.foldl_cons]
        rw [show acc + (if isSubstr ql (pyLower t) then 3 else 0)
              + (if pyLower t ∈ qw then 2 else 0) = acc by simp [h1, h2]]
        exact ih acc (fun u hu => h u (by simp [hu]))
  intro tags h
  exact aux tags 0 h

/-- `lexLe` is total. -/
theorem lexLe_total : ∀ x y : List Char, lexLe x y = true ∨ lexLe y x = true := by
  intro x
  induction x with
  | nil => intro y; left; rfl
  | cons a xs ih =>
      intro y
      cases y with
      | nil => right; rfl
      | cons b ys =>
          rcases lt_trichotomy a b with h | h | h
          · left; simp [lexLe, h]
          · subst h
            rcases ih ys with h2 | h2
            · left; simp [lexLe, lt_irrefl, h2]
            · right; simp [lexLe, lt_irrefl, h2]
          · right; simp [lexLe, h]

/-- `lexLe` is transitive. -/
theorem lexLe_trans :
    ∀ x y z : List Char, lexLe x y = true → lexLe y z = true → lexLe x z = true := by
  intro x
  induction x with
  | nil => intro y z _ _; rfl
  | cons a xs ih =>
      intro y z hxy hyz
      cases y with
      | nil => simp [lexLe] at hxy
      | cons b ys =>
          cases z with
          | nil => simp [lexLe] at hyz
          | cons c zs =>
              rcases lt_trichotomy a b with hab | hab | hab
              · rcases lt_trichotomy b c with hbc | hbc | hbc
                · simp [lexLe, lt_trans hab hbc]
                · subst hbc; simp [lexLe, hab]
                · simp [lexLe, asymm hbc, hbc] at hyz
              · subst hab
                rcases lt_trichotomy a c with hac | hac | hac
                · simp [lexLe, hac]
                · subst hac
                  simp only [lexLe, lt_irrefl, if_false] at hxy hyz ⊢
                  exact ih ys zs hxy hyz
                · simp [lexLe, asymm hac, hac] at hyz
              · simp [lexLe, asymm hab, hab] at hxy

/-- Members of a stable lexicographic insertion. -/
theorem mem_insLex {x y : List Char} :
    ∀ {l : List (List Char)}, y ∈ insLex x l ↔ y = x ∨ y ∈ l := by
  intro l
  induction l with
  | nil => simp [insLex]
  | cons z t ih =>
      by_cases h : lexLe x z
      · simp [insLex, h, List.mem_cons]
      · simp [insLex, h, List.mem_cons, ih]
        tauto

/-- A lexicographic insertion is a permutation of consing. -/
theorem perm_insLex (x : List Char) :
    ∀ l : List (List Char), (insLex x l).Perm (x :: l) := by
  intro l
  induction l with
  | nil => exact List.Perm.refl _
  | cons z t ih =>
      by_cases h : lexLe x z
      · show (if lexLe x z then x :: z :: t else z :: insLex x t).Perm _
        rw [if_pos h]
      · show (if lexLe x z then x :: z :: t else z :: insLex x t).Perm _
        rw [if_neg h]
        exact (ih.cons z).trans (List.Perm.swap x z t)

/-- Inserting keeps the ascending lexicographic pairwise order. -/
theorem pairwise_insLex {x : List Char} :
    ∀ {l : List (List Char)},
      l.Pairwise (fun a b => lexLe a b = true) →
      (insLex x l).Pairwise (fun a b => lexLe a b = true) := by
  intro l
  induction l with
  | nil => intro _; simp [insLex]
  | cons z t ih =>
      intro h
      rcases List.pairwise_cons.mp h with ⟨hz, ht⟩
      by_cases hc : lexLe x z
      · show List.Pairwise _ (if lexLe x z then x :: z :: t else z :: insLex x t)
        rw [if_pos hc]
        refine List.pairwise_cons.mpr ⟨?_, h⟩
        intro b hb
        rcases List.mem_cons.mp hb with rfl | hb
        · exact hc
        · exact lexLe_trans x z b hc (hz b hb)
      · show List.Pairwise _ (if lexLe x z then x :: z :: t else z :: insLex x t)
        rw [if_neg hc]
        refine List.pairwise_cons.mpr ⟨?_, ih ht⟩
        intro b hb
        rcases mem_insLex.mp hb with rfl | hb
        · rcases lexLe_total z b with h2 | h2
          · exact h2
          · exact absurd h2 (by simpa using hc)
        · exact hz b hb

/-- `sorted(keys)` is ascending. -/
theorem pySortedStr_pairwise :
    ∀ l : List (List Char),
      (pySortedStr l).Pairwise (fun a b => lexLe a b = true) := by
  intro l
  induction l with
  | nil => exact List.Pairwise.nil
  | cons a t ih => exact pairwise_insLex ih

/-- `sorted(keys)` is a permutation of the keys. -/
theorem pySortedStr_perm :
    ∀ l : List (List Char), (pySortedStr l).Perm l := by
  intro l
  induction l with
  | nil => exact List.Perm.refl _
  | cons a t ih =>
      show (insLex a (pySortedStr t)).Perm _
      exact (perm_insLex a (pySortedStr t)).trans (ih.cons a)

/-- Every member of a `zipWith` is the image of members of the two
lists. -/
theorem mem_zipWith_exists {α β γ : Type} {f : α → β → γ} {c : γ} :
    ∀ {l1 : List α} {l2 : List β},
      c ∈ List.zipWith f l1 l2 → ∃ a b, a ∈ l1 ∧ b ∈ l2 ∧ c = f a b := by
  intro l1
  induction l1 with
  | nil => intro l2 h; simp at h
  | cons a t ih =>
      intro l2 h
      cases l2 with
      | nil => simp at h
      | cons b u =>
          rw [List.zipWith_cons_cons] at h
          rcases List.mem_cons.mp h with rfl | h
          · exact ⟨a, b, by simp, by simp, rfl⟩
          · rcases ih h with ⟨a', b', ha, hb, rfl⟩
            exact ⟨a', b', by simp [ha], by simp [hb], rfl⟩

/-- When the text after a marker starts with a newline whose following
whitespace holds no further newline, the greedy `\s*\n` candidates
collapse to the single split at that newline. -/
theorem nlSplitCandidates_nl_cons {body : List Char}
    (hb : '\n' ∉ body.takeWhile isPySpace) :
    nlSplitCandidates ('\n' :: body) = [0] := by
  have hnl : isPySpace '\n' = true := by decide
  simp only [nlSplitCandidates, List.takeWhile_cons, hnl, if_true]
  have hfilter :
      (List.range (body.takeWhile isPySpace).length.succ).filter
        (fun j => ('\n' :: body.takeWhile isPySpace).get? j = some '\n') = [0] := by
    apply range_filter_zero
    · simp
    · intro j
      simp only [List.get?_cons_succ]
      apply decide_eq_false
      intro hc
      exact hb (List.get?_mem hc)
  simp only [List.length_cons]
  rw [hfilter]
  rfl

/-- `\n---\s*\n` matches at the canonical closing marker. -/
theorem closeHere_marker {body : List Char} (hb : '\n' ∉ body.takeWhile isPySpace) :
    closeHere ('\n' :: '-' :: '-' :: '-' :: '\n' :: body) = true := by
  simp [closeHere, nlSplitCandidates_nl_cons hb]

/-- The remainder of the canonical closing marker match is the body. -/
theorem closeRest_marker {body : List Char} (hb : '\n' ∉ body.takeWhile isPySpace) :
    closeRest ('\n' :: '-' :: '-' :: '-' :: '\n' :: body) = body := by
  simp [closeRest, nlSplitCandidates_nl_cons hb]

/-- On a canonically shaped region — a frontmatter with no closing
marker inside it, then the marker, then a body with no leading
newline in its whitespace — the lazy scan returns exactly the
frontmatter and the body. -/
theorem findClosing_canonical :
    ∀ (fm body : List Char),
      (∀ i, i < fm.length →
        closeHere ((fm ++ '\n' :: '-' :: '-' :: '-' :: '\n' :: body).drop i) = false) →
      '\n' ∉ body.takeWhile isPySpace →
      findClosing (fm ++ '\n' :: '-' :: '-' :: '-' :: '\n' :: body) = some (fm, body) := by
  intro fm
  induction fm with
  | nil =>
      intro body _ hb
      show findClosing ('\n' :: '-' :: '-' :: '-' :: '\n' :: body) = some ([], body)
      rw [findClosing]
      rw [closeHere_marker hb, closeRest_marker hb]
      rfl
  | cons c t ih =>
      intro body h3 hb
      have h0 : closeHere (c :: (t ++ '\n' :: '-' :: '-' :: '-' :: '\n' :: body)) = false := by
        have := h3 0 (by simp)
        simpa using this
      have h3' : ∀ i, i < t.length →
          closeHere ((t ++ '\n' :: '-' :: '-' :: '-' :: '\n' :: body).drop i) = false := by
        intro i hi
        have := h3 (i + 1) (by simp; omega)
        simpa using this
      show findClosing (c :: (t ++ '\n' :: '-' :: '-' :: '-' :: '\n' :: body)) =
        some (c :: t, body)
      rw [findClosing]
      rw [h0]
      simp only [if_false, Bool.false_eq_true]
      rw [ih body h3' hb]

/-- The whole frontmatter regex on a canonically shaped document. -/
theorem splitFm_canonical (fm body : List Char)
    (hne : fm ≠ []) (hhd : ∀ c, fm.head? = some c → isPySpace c = false)
    (h3 : ∀ i, i < fm.length →
      closeHere ((fm ++ '\n' :: '-' :: '-' :: '-' :: '\n' :: body).drop i) = false)
    (hb : '\n' ∉ body.takeWhile isPySpace) :
    splitFm (fmDoc fm body) = some (fm, body) := by
  obtain ⟨c0, cs, rfl⟩ := List.exists_cons_of_ne_nil hne
  have hc0 : isPySpace c0 = false := hhd c0 rfl
  show splitFm ('-' :: '-' :: '-' :: '\n' ::
    ((c0 :: cs) ++ '\n' :: '-' :: '-' :: '-' :: '\n' :: body)) = _
  rw [splitFm]
  have hX : ((c0 :: cs) ++ '\n' :: '-' :: '-' :: '-' :: '\n' :: body).takeWhile isPySpace
      = [] := by
    rw [List.cons_append]
    exact takeWhile_cons_false _ hc0
  have hcand :
      nlSplitCandidates ('\n' :: ((c0 :: cs) ++ '\n' :: '-' :: '-' :: '-' :: '\n' :: body))
        = [0] := by
    apply nlSplitCandidates_nl_cons
    rw [hX]
    simp
  rw [hcand]
  rw [tryOpenings]
  simp only [List.drop_succ_cons, List.drop_zero]
  rw [findClosing_canonical (c0 :: cs) body h3 hb]

/-- `_parse_rule_file` on a canonically shaped document whose
frontmatter carries a title and an impact: the rule's fields are the
trimmed frontmatter values and the body is preserved verbatim. -/
theorem parse_rule_file_canonical (pfx fm body tv iv : List Char)
    (hne : fm ≠ []) (hhd : ∀ c, fm.head? = some c → isPySpace c = false)
    (h3 : ∀ i, i < fm.length →
      closeHere ((fm ++ '\n' :: '-' :: '-' :: '-' :: '\n' :: body).drop i) = false)
    (hb : '\n' ∉ body.takeWhile isPySpace)
    (ht : searchValue (strL "title:") fm = some tv)
    (hi : searchWordValue (strL "impact:") fm = some iv) :
    parse_rule_file pfx (fmDoc fm body) =
      some
        { pfx := pfx, title := pyStrip tv, impact := pyStrip iv,
          impact_description :=
            match searchValue (strL "impactDescription:") fm with
            | some dv => pyStrip dv
            | none => [],
          tags :=
            match searchValue (strL "tags:") fm with
            | some tg => (tg.splitOn ',').map pyStrip
            | none => [],
          content := body,
          summary :=
            match searchSummary body with
            | some sv => pyStrip sv
            | none => [],
          section_number := 0 } := by
  rw [parse_rule_file, splitFm_canonical fm body hne hhd h3 hb]
  dsimp only
  rw [ht, hi]

/-- One step of the summary scan at a `##`. -/
theorem searchSummary_hashhash (X : List Char) :
    searchSummary ('#' :: '#' :: X) =
      match trySummaryAt X with
      | some u => some u
      | none => searchSummary ('#' :: X) := by
  rw [searchSummary]
  simp [headIsHashHash]

/-- The summary tail pattern on the canonical heading shape: a
non-empty heading remainder, one or more newlines, then a character
other than `#` and newline. -/
theorem trySummaryAt_canonical (h : List Char) (c : Char) (v : List Char) (n : Nat)
    (hne : h ≠ []) (hnl : ∀ ch ∈ h, ch ≠ '\n') (hc1 : c ≠ '#') (hc2 : c ≠ '\n') :
    trySummaryAt (h ++ List.replicate (n + 1) '\n' ++ c :: v) =
      some (c :: v.takeWhile (fun d => d ≠ '\n' && d ≠ '#')) := by
  rw [List.append_assoc]
  have ht1 : (h ++ (List.replicate (n + 1) '\n' ++ c :: v)).takeWhile
      (fun x => decide (x ≠ '\n')) = h := by
    rw [takeWhile_append_all _ (fun d hd => by simpa using hnl d hd)]
    rw [List.replicate_succ, List.cons_append, takeWhile_cons_false _ (by simp),
      List.append_nil]
  have hhe : h.isEmpty = false := by
    cases h with
    | nil => exact absurd rfl hne
    | cons a t => rfl
  have hnls : (List.replicate (n + 1) '\n' ++ c :: v).takeWhile
      (fun x => decide (x = '\n')) = List.replicate (n + 1) '\n' := by
    rw [takeWhile_append_all _ (fun d hd => by simp [List.eq_of_mem_replicate hd])]
    rw [takeWhile_cons_false _ (by simp [hc2]), List.append_nil]
  have hre : (List.replicate (n + 1) '\n').isEmpty = false := by
    rw [List.replicate_succ]; rfl
  simp only [trySummaryAt]
  rw [ht1, hhe]
  simp only [Bool.false_eq_true, if_false]
  rw [List.drop_left, hnls, hre]
  simp only [Bool.false_eq_true, if_false]
  rw [List.drop_left]
  rw [List.takeWhile_cons]
  simp [hc1, hc2]

/-- The summary regex finds nothing in a hash-free body. -/
theorem searchSummary_none_of_no_hash :
    ∀ body : List Char, (∀ ch ∈ body, ch ≠ '#') → searchSummary body = none := by
  intro body
  induction body with
  | nil => intro _; rfl
  | cons c t ih =>
      intro h
      have hc : c ≠ '#' := h c (by simp)
      have hh : headIsHashHash (c :: t) = false := by
        cases t with
        | nil => rfl
        | cons d u => simp [headIsHashHash, hc]
      rw [searchSummary, hh]
      simp only [Bool.false_eq_true, if_false]
      exact ih (fun ch hch => h ch (by simp [hch]))

/-! ## The claims -/

/-- C1: section assignment during load.  The claim says the loader
prefers a two-token compound prefix (such as `semantic-cache`) when it
names a known section, so a rule whose prefix starts with
`semantic-cache-` joins the `semantic-cache` section and receives its
ordinal.  The runtime loader `_load_rules` in fact uses only
`rule.prefix.split("-")[0]`: with a registry holding the
`semantic-cache` section (ordinal 7), registering the rule
`semantic-cache-best-practices` looks up the prefix `semantic`,
finds nothing, leaves the rule with `section_number = 0` and the
section's rule list empty — while `build.py`'s assignment (the same
pipeline at build time, embedded as `buildSectionPfx`) resolves the
compound prefix exactly as the claim describes. -/
theorem c1_load_rules_drops_compound_prefix :
    registerRule c1Kb c1Rule =
      { sections := [(strL "semantic-cache", c1Section)],
        rules := [(strL "semantic-cache-best-practices", c1Rule)],
        rules_by_tag := [], full_guide := [] }
    ∧ splitFirstTok c1Rule.pfx = strL "semantic"
    ∧ dictGet c1Kb.sections (strL "semantic") = none
    ∧ (dictGet (registerRule c1Kb c1Rule).rules c1Rule.pfx).map Rule.section_number
        = some 0
    ∧ (dictGet (registerRule c1Kb c1Rule).sections (strL "semantic-cache")).map
        Section.rules = some []
    ∧ buildSectionPfx c1Kb.sections c1Rule.pfx = strL "semantic-cache"
    ∧ (dictGet c1Kb.sections (buildSectionPfx c1Kb.sections c1Rule.pfx)).map
        Section.number = some 7 := by
  decide

/-- C2 (amended): a query appearing verbatim in `R1`'s title scores
`R1` at least 9 points above an `R2` in which the query occurs only in
the body — provided additionally that no tag of `R2` equals a whole
query word (the hypotheses below are the claim's, restated over the
embedded scorer, plus that tag condition). -/
theorem c2_title_match_score_margin (q : List Char) (r1 r2 : Rule)
    (h1 : isSubstr (pyLower q) (pyLower r1.title) = true)
    (h2 : isSubstr (pyLower q) (pyLower r2.title) = false)
    (h3 : ∀ w ∈ wordSet (pyLower q), w ∉ pySplitWs (pyLower r2.title))
    (h4 : ∀ t ∈ r2.tags,
      isSubstr (pyLower q) (pyLower t) = false ∧ pyLower t ∉ wordSet (pyLower q))
    (h5 : isSubstr (pyLower q) (pyLower r2.impact_description) = false) :
    searchScore (pyLower q) (wordSet (pyLower q)) r2 + 9 ≤
      searchScore (pyLower q) (wordSet (pyLower q)) r1 := by
  have hr1 : 10 ≤ searchScore (pyLower q) (wordSet (pyLower q)) r1 := by
    rw [searchScore, if_pos h1]
    omega
  have hfilter : (wordSet (pyLower q)).filter
      (fun w => w ∈ pySplitWs (pyLower r2.title)) = [] := by
    apply List.filter_eq_nil_iff.mpr
    intro w hw
    simpa using h3 w hw
  have htag : tagPoints (pyLower q) (wordSet (pyLower q)) r2.tags = 0 :=
    tagPoints_eq_zero _ _ _ h4
  have hr2 : searchScore (pyLower q) (wordSet (pyLower q)) r2 ≤ 1 := by
    rw [searchScore, hfilter, htag]
    simp [h2, h5]
    split <;> omega
  omega

/-- C2 counterexample: the claim as stated (a margin of at least 10
under its own hypotheses) fails.  Scenario A: query `ool`, title match
scores exactly 10 and body-only match scores exactly 1, a margin of 9.
Scenario B: query `a b`, where tags of `R2` equal to whole query words
push `R2` to 5 while `R1` stays at 10, a margin of 5. -/
theorem c2_counterexample :
    (isSubstr (pyLower (strL "ool")) (pyLower c2r1A.title) = true
      ∧ isSubstr (pyLower (strL "ool")) (pyLower c2r2A.title) = false
      ∧ isSubstr (pyLower (strL "ool")) (pyLower c2r2A.content) = true
      ∧ c2r2A.tags = []
      ∧ (wordSet (pyLower (strL "ool"))).filter
          (fun w => w ∈ pySplitWs (pyLower c2r2A.title)) = []
      ∧ isSubstr (pyLower (strL "ool")) (pyLower c2r2A.impact_description) = false
      ∧ searchScore (pyLower (strL "ool")) (wordSet (pyLower (strL "ool"))) c2r1A = 10
      ∧ searchScore (pyLower (strL "ool")) (wordSet (pyLower (strL "ool"))) c2r2A = 1
      ∧ ¬ (searchScore (pyLower (strL "ool")) (wordSet (pyLower (strL "ool"))) c2r2A + 10 ≤
            searchScore (pyLower (strL "ool")) (wordSet (pyLower (strL "ool"))) c2r1A))
    ∧ (isSubstr (pyLower (strL "a b")) (pyLower c2r1B.title) = true
      ∧ isSubstr (pyLower (strL "a b")) (pyLower c2r2B.title) = false
      ∧ isSubstr (pyLower (strL "a b")) (pyLower c2r2B.content) = true
      ∧ c2r2B.tags.all (fun t => !(isSubstr (pyLower (strL "a b")) (pyLower t))) = true
      ∧ (wordSet (pyLower (strL "a b"))).filter
          (fun w => w ∈ pySplitWs (pyLower c2r2B.title)) = []
      ∧ isSubstr (pyLower (strL "a b")) (pyLower c2r2B.impact_description) = false
      ∧ searchScore (pyLower (strL "a b")) (wordSet (pyLower (strL "a b"))) c2r1B = 10
      ∧ searchScore (pyLower (strL "a b")) (wordSet (pyLower (strL "a b"))) c2r2B = 5
      ∧ ¬ (searchScore (pyLower (strL "a b")) (wordSet (pyLower (strL "a b"))) c2r2B + 10 ≤
            searchScore (pyLower (strL "a b")) (wordSet (pyLower (strL "a b"))) c2r1B)) := by
  decide

/-- C2 witness: the amended margin theorem applied at scenario A. -/
theorem c2_title_match_score_margin_witness :
    searchScore (pyLower (strL "ool")) (wordSet (pyLower (strL "ool"))) c2r2A + 9 ≤
      searchScore (pyLower (strL "ool")) (wordSet (pyLower (strL "ool"))) c2r1A :=
  c2_title_match_score_margin (strL "ool") c2r1A c2r2A (by decide) (by decide)
    (by decide) (by decide) (by decide)

/-- C3 (amended): `search_rules` returns exactly the rules of
positive score — scored with `+3` per tag containing the query and
`+2` per tag equal to a whole query word — in descending score order,
with each score class keeping the rule table's iteration order; and a
single-token query absent from every title, tag, body and impact
description yields the empty result. -/
theorem c3_search_scoring_characterization (kb : KnowledgeBase) (q : List Char) :
    ((search_rules kb q).Pairwise (fun a b =>
        searchScore (pyLower q) (wordSet (pyLower q)) b ≤
          searchScore (pyLower q) (wordSet (pyLower q)) a))
    ∧ (∀ s : Nat, 0 < s →
        (search_rules kb q).filter
            (fun r => searchScore (pyLower q) (wordSet (pyLower q)) r = s) =
          (ruleValues kb).filter
            (fun r => searchScore (pyLower q) (wordSet (pyLower q)) r = s))
    ∧ ((search_rules kb q).filter
        (fun r => searchScore (pyLower q) (wordSet (pyLower q)) r = 0) = [])
    ∧ (wordSet (pyLower q) = [pyLower q] →
        (∀ r ∈ ruleValues kb,
          isSubstr (pyLower q) (pyLower r.title) = false ∧
          pyLower q ∉ pySplitWs (pyLower r.title) ∧
          (∀ t ∈ r.tags, isSubstr (pyLower q) (pyLower t) = false) ∧
          isSubstr (pyLower q) (pyLower r.content) = false ∧
          isSubstr (pyLower q) (pyLower r.impact_description) = false) →
        search_rules kb q = []) := by
  refine ⟨?_, ?_, ?_, ?_⟩
  · simp only [search_rules]
    rw [List.pairwise_map]
    have hp := pairwise_stableSortScored (scoredRules kb (pyLower q) (wordSet (pyLower q)))
    refine hp.imp_of_mem ?_
    intro a b ha hb hle
    have ha' := scoredOf_mem (mem_stableSortScored.mp ha)
    have hb' := scoredOf_mem (mem_stableSortScored.mp hb)
    rw [← ha'.1, ← hb'.1]
    exact hle
  · intro s hs
    simp only [search_rules]
    rw [List.filter_map]
    have hcongr :
        (stableSortScored (scoredRules kb (pyLower q) (wordSet (pyLower q)))).filter
            ((fun r => decide (searchScore (pyLower q) (wordSet (pyLower q)) r = s)) ∘
              (fun p => p.2)) =
          (stableSortScored (scoredRules kb (pyLower q) (wordSet (pyLower q)))).filter
            (fun p => decide (p.1 = s)) := by
      apply List.filter_congr
      intro p hp
      have h := scoredOf_mem (mem_stableSortScored.mp hp)
      simp [Function.comp, h.1]
    rw [hcongr, filter_stableSortScored, scoredRules,
      filter_scoredOf (pyLower q) (wordSet (pyLower q)) s hs, List.map_map]
    simp
  · apply List.filter_eq_nil_iff.mpr
    intro r hr
    simp only [search_rules] at hr
    rcases List.mem_map.mp hr with ⟨p, hp, rfl⟩
    have h := scoredOf_mem (mem_stableSortScored.mp hp)
    simp only [decide_eq_true_eq]
    omega
  · intro hqw hall
    have hzero : ∀ r ∈ ruleValues kb,
        searchScore (pyLower q) (wordSet (pyLower q)) r = 0 := by
      intro r hr
      rcases hall r hr with ⟨h1, h2, h3, h4, h5⟩
      have hfilter : (wordSet (pyLower q)).filter
          (fun w => w ∈ pySplitWs (pyLower r.title)) = [] := by
        rw [hqw]
        simp [h2]
      have htag : tagPoints (pyLower q) (wordSet (pyLower q)) r.tags = 0 := by
        apply tagPoints_eq_zero
        intro t ht
        refine ⟨h3 t ht, ?_⟩
        rw [hqw]
        intro hmem
        have heq : pyLower t = pyLower q := by simpa using hmem
        have : isSubstr (pyLower q) (pyLower t) = true := by
          rw [heq]
          exact isSubstr_refl _
        rw [h3 t ht] at this
        cases this
      rw [searchScore, hfilter, htag]
      simp [h1, h4, h5]
    have hsc : scoredRules kb (pyLower q) (wordSet (pyLower q)) = [] := by
      apply List.filterMap_eq_nil_iff.mpr
      intro r hr
      simp [hzero r hr]
    simp [search_rules, hsc, stableSortScored]

/-- C3 counterexample: with query `fo`, the rule `c3rA` (three tags
containing the query, query in body) and `c3rB` (query in title) both
score 10 under the code's per-tag accumulation, so `search_rules`
returns them tied in table order — but under the claim's flat tag
bonuses `c3rA` scores 4 and `c3rB` scores 10, so the returned order is
not descending in the claim's score. -/
theorem c3_counterexample :
    search_rules c3Kb (strL "fo") = [c3rA, c3rB]
    ∧ specClaimScore (pyLower (strL "fo")) (wordSet (pyLower (strL "fo"))) c3rA = 4
    ∧ specClaimScore (pyLower (strL "fo")) (wordSet (pyLower (strL "fo"))) c3rB = 10
    ∧ searchScore (pyLower (strL "fo")) (wordSet (pyLower (strL "fo"))) c3rA = 10
    ∧ searchScore (pyLower (strL "fo")) (wordSet (pyLower (strL "fo"))) c3rB = 10
    ∧ ¬ (specClaimScore (pyLower (strL "fo")) (wordSet (pyLower (strL "fo"))) c3rB ≤
          specClaimScore (pyLower (strL "fo")) (wordSet (pyLower (strL "fo"))) c3rA) := by
  decide

/-- C3 witness: the characterization applied at a concrete base and a
token absent from it. -/
theorem c3_search_scoring_characterization_witness :
    search_rules c3wKb (strL "qqq") = []
    ∧ (search_rules c3wKb (strL "qqq")).filter
        (fun r => searchScore (pyLower (strL "qqq")) (wordSet (pyLower (strL "qqq"))) r = 5) =
      (ruleValues c3wKb).filter
        (fun r => searchScore (pyLower (strL "qqq")) (wordSet (pyLower (strL "qqq"))) r = 5) := by
  refine ⟨?_, (c3_search_scoring_characterization c3wKb (strL "qqq")).2.1 5 (by decide)⟩
  exact (c3_search_scoring_characterization c3wKb (strL "qqq")).2.2.2 (by decide) (by decide)

/-- C4: `get_rule_by_topic` — exact key first; on a miss the fixed
prefix list is tried in order and the first fabricated key present
wins, with the returned rule equal to the full-key lookup's result;
when nothing matches the result is absence, never an error (the
embedding is a total function into `Option`). -/
theorem c4_get_rule_by_topic_lookup (kb : KnowledgeBase) (topic : List Char) :
    (∀ r, dictGet kb.rules topic = some r → get_rule_by_topic kb topic = some r)
    ∧ (dictGet kb.rules topic = none →
        ∀ p, commonPfxList.find?
            (fun pf => (dictGet kb.rules (pf ++ topic)).isSome) = some p →
          get_rule_by_topic kb topic = dictGet kb.rules (p ++ topic)
          ∧ get_rule_by_topic kb topic = get_rule_by_topic kb (p ++ topic))
    ∧ (dictGet kb.rules topic = none →
        (∀ p ∈ commonPfxList, dictGet kb.rules (p ++ topic) = none) →
        get_rule_by_topic kb topic = none) := by
  refine ⟨?_, ?_, ?_⟩
  · intro r h
    simp [get_rule_by_topic, h]
  · intro h p hp
    have h1 : get_rule_by_topic kb topic = dictGet kb.rules (p ++ topic) := by
      simp only [get_rule_by_topic, h]
      exact findSome?_eq_of_find?_isSome _ commonPfxList p hp
    refine ⟨h1, ?_⟩
    have h2 : (dictGet kb.rules (p ++ topic)).isSome = true := by
      simpa using List.find?_some hp
    rcases Option.isSome_iff_exists.mp h2 with ⟨r, hr⟩
    rw [h1, hr]
    simp [get_rule_by_topic, hr]
  · intro h hall
    simp only [get_rule_by_topic, h]
    exact List.findSome?_eq_none_iff.mpr hall

/-- C4 witness: `pool` is found through the `conn-` prefix and agrees
with the full-key lookup. -/
theorem c4_get_rule_by_topic_lookup_witness :
    get_rule_by_topic c4Kb (strL "pool") = some c4Rule
    ∧ get_rule_by_topic c4Kb (strL "pool") =
        get_rule_by_topic c4Kb (strL "conn-" ++ strL "pool") := by
  have h := (c4_get_rule_by_topic_lookup c4Kb (strL "pool")).2.1 (by decide)
    (strL "conn-") (by decide)
  exact ⟨h.1.trans (by decide), h.2⟩

/-- C5 (amended): `get_best_practice` returns the markdown of the
rule found by normalized topic lookup; on a lookup miss it returns
the markdown of the first fuzzy-search result when the search on the
raw topic is non-empty; only when both fail does it return the
not-found message, whose topic list is the lexicographically sorted
list of all rule prefixes. -/
theorem c5_get_best_practice_branches (kb : KnowledgeBase) (topic : List Char) :
    (∀ r, get_rule_by_topic kb (normalizeTopic topic) = some r →
        get_best_practice kb topic = to_markdown r)
    ∧ (∀ r rs, get_rule_by_topic kb (normalizeTopic topic) = none →
        search_rules kb topic = r :: rs →
        get_best_practice kb topic = to_markdown r)
    ∧ (get_rule_by_topic kb (normalizeTopic topic) = none →
        search_rules kb topic = [] →
        get_best_practice kb topic = topicNotFoundMsg kb topic)
    ∧ (list_all_topics kb).Pairwise (fun a b => lexLe a b = true)
    ∧ (list_all_topics kb).Perm (kb.rules.map (fun e => e.1)) := by
  refine ⟨?_, ?_, ?_, pySortedStr_pairwise _, pySortedStr_perm _⟩
  · intro r h
    simp [get_best_practice, h]
  · intro r rs h hs
    simp [get_best_practice, h, hs]
  · intro h hs
    simp [get_best_practice, h, hs]

/-- C5 counterexample: for topic `poo` the lookup misses, yet the
output is a rule's markdown (the first fuzzy-search hit), not the
claimed not-found message. -/
theorem c5_counterexample :
    get_rule_by_topic c5Kb (normalizeTopic (strL "poo")) = none
    ∧ get_best_practice c5Kb (strL "poo") = to_markdown c5Rule
    ∧ ¬ (get_best_practice c5Kb (strL "poo") = topicNotFoundMsg c5Kb (strL "poo")) := by
  decide

/-- C5 witness: the branch theorem applied at an exact hit and at a
complete miss. -/
theorem c5_get_best_practice_branches_witness :
    get_best_practice c5Kb (strL "conn-pool") = to_markdown c5Rule
    ∧ get_best_practice c5Kb (strL "zzz") = topicNotFoundMsg c5Kb (strL "zzz") := by
  refine ⟨(c5_get_best_practice_branches c5Kb (strL "conn-pool")).1 c5Rule (by decide), ?_⟩
  exact (c5_get_best_practice_branches c5Kb (strL "zzz")).2.2.1 (by decide) (by decide)

/-- C6: the rule parser returns absence — never an exception, the
embedding being total — whenever the frontmatter does not match or the
`title`/`impact` fields are absent; and on a canonically shaped
document whose frontmatter carries (non-empty) title and impact
values, it returns a rule whose title and impact are those values
trimmed and whose content is the entire body after the closing
marker, verbatim. -/
theorem c6_parse_rule_file_contract :
    (∀ pfx content, splitFm content = none → parse_rule_file pfx content = none)
    ∧ (∀ pfx content fm body, splitFm content = some (fm, body) →
        searchValue (strL "title:") fm = none → parse_rule_file pfx content = none)
    ∧ (∀ pfx content fm body, splitFm content = some (fm, body) →
        searchWordValue (strL "impact:") fm = none → parse_rule_file pfx content = none)
    ∧ (∀ pfx fm body tv iv, fm ≠ [] → fm.takeWhile isPySpace = [] →
        (∀ i, i < fm.length →
          closeHere ((fm ++ '\n' :: '-' :: '-' :: '-' :: '\n' :: body).drop i) = false) →
        '\n' ∉ body.takeWhile isPySpace →
        searchValue (strL "title:") fm = some tv →
        searchWordValue (strL "impact:") fm = some iv →
        pyStrip tv ≠ [] →
        (parse_rule_file pfx (fmDoc fm body)).map Rule.title = some (pyStrip tv)
        ∧ (parse_rule_file pfx (fmDoc fm body)).map Rule.impact = some (pyStrip iv)
        ∧ (parse_rule_file pfx (fmDoc fm body)).map Rule.content = some body) := by
  refine ⟨?_, ?_, ?_, ?_⟩
  · intro pfx content h
    rw [parse_rule_file, h]
  · intro pfx content fm body h ht
    rw [parse_rule_file, h]
    dsimp only
    rw [ht]
  · intro pfx content fm body h hi
    rw [parse_rule_file, h]
    dsimp only
    rcases hx : searchValue (strL "title:") fm with _ | tv
    · rfl
    · rw [hi]
  · intro pfx fm body tv iv h1 h2 h3 h4 ht hi htne
    have hhd : ∀ c, fm.head? = some c → isPySpace c = false := by
      intro c hc
      obtain ⟨c0, cs, rfl⟩ := List.exists_cons_of_ne_nil h1
      cases hc
      by_cases hs : isPySpace c
      · rw [List.takeWhile_cons, if_pos hs] at h2
        cases h2
      · simpa using hs
    rw [parse_rule_file_canonical pfx fm body tv iv h1 hhd h3 h4 ht hi]
    exact ⟨rfl, rfl, rfl⟩

/-- C6 witness: the contract applied to a concrete well-formed
document and a concrete frontmatter-free document. -/
theorem c6_parse_rule_file_contract_witness :
    (parse_rule_file (strL "conn-pooling") (fmDoc c6Fm c6Body)).map Rule.content =
      some c6Body
    ∧ (parse_rule_file (strL "conn-pooling") (fmDoc c6Fm c6Body)).map Rule.title =
        some (pyStrip (strL "Use Connection Pooling"))
    ∧ parse_rule_file (strL "p") (strL "no frontmatter here") = none := by
  have h := c6_parse_rule_file_contract.2.2.2 (strL "conn-pooling") c6Fm c6Body
    (strL "Use Connection Pooling") (strL "HIGH") (by decide) (by decide) (by decide)
    (by decide) (by decide) (by decide) (by decide)
  exact ⟨h.2.2, h.1, c6_parse_rule_file_contract.1 _ _ (by decide)⟩

/-- C7: anti-pattern extraction pairs the Incorrect and Correct
matches positionally, truncating to the shorter list; each emitted
pair carries the two fenced contents verbatim minus surrounding
whitespace and the owning section's name as category; and on a body
with exactly one Incorrect and one Correct fenced pair, exactly one
anti-pattern is produced. -/
theorem c7_anti_pattern_pairing :
    (∀ sections r, (antiPatternsOfRule sections r).length =
        min (incMatches r.content).length (corMatches r.content).length)
    ∧ (∀ sections (r : Rule) (k : Nat) ap,
        (antiPatternsOfRule sections r).get? k = some ap →
        ∃ pi pc, (incMatches r.content).get? k = some pi
          ∧ (corMatches r.content).get? k = some pc
          ∧ ap.bad_code = pyStrip pi.2.2 ∧ ap.good_code = pyStrip pc.2.2
          ∧ ap.language = pi.2.1 ∧ ap.reason = r.impact_description)
    ∧ (∀ sections (r : Rule) s, dictGet sections (splitFirstTok r.pfx) = some s →
        ∀ ap ∈ antiPatternsOfRule sections r, ap.category = s.name)
    ∧ get_anti_patterns c7Kb none = [(strL "Connection & Performance", [c7AP])] := by
  refine ⟨?_, ?_, ?_, by decide⟩
  · intro sections r
    rw [antiPatternsOfRule, List.length_zipWith]
  · intro sections r k ap h
    rw [antiPatternsOfRule, List.get?_zipWith] at h
    rcases hpi : (incMatches r.content).get? k with _ | pi
    · rw [hpi] at h
      cases h
    · rcases hpc : (corMatches r.content).get? k with _ | pc
      · rw [hpi, hpc] at h
        cases h
      · rw [hpi, hpc] at h
        cases h
        exact ⟨pi, pc, rfl, rfl, rfl, rfl, rfl, rfl⟩
  · intro sections r s hs ap hap
    rw [antiPatternsOfRule] at hap
    rcases mem_zipWith_exists hap with ⟨a, b, -, -, rfl⟩
    simp [mkAntiPattern, categoryOf, hs]

/-- C7 witness: the pairing theorem applied at the concrete
single-pair rule. -/
theorem c7_anti_pattern_pairing_witness :
    (antiPatternsOfRule c7Kb.sections c7Rule).length =
      min (incMatches c7Rule.content).length (corMatches c7Rule.content).length
    ∧ c7AP.category = c7Section.name := by
  refine ⟨c7_anti_pattern_pairing.1 c7Kb.sections c7Rule, ?_⟩
  exact c7_anti_pattern_pairing.2.2.1 c7Kb.sections c7Rule c7Section (by decide)
    c7AP (by decide)

/-- C8 (amended): the summary is extracted from the first `##`
heading with a non-empty rest-of-line, allowing any positive number of
newlines (so also blank lines) before the text, which must start with
a character other than `#` and newline and is truncated at the first
`#` or newline; a `#`-free body yields no summary; and parsing
succeeds regardless, storing the trimmed summary or the empty
string. -/
theorem c8_summary_extraction :
    (∀ (h : List Char) (c : Char) (v : List Char) (n : Nat),
        h ≠ [] → (∀ ch ∈ h, ch ≠ '\n') → c ≠ '#' → c ≠ '\n' →
        searchSummary ('#' :: '#' :: (h ++ List.replicate (n + 1) '\n' ++ c :: v)) =
          some (c :: v.takeWhile (fun d => d ≠ '\n' && d ≠ '#')))
    ∧ (∀ body : List Char, (∀ ch ∈ body, ch ≠ '#') → searchSummary body = none)
    ∧ (∀ pfx content fm body r, splitFm content = some (fm, body) →
        parse_rule_file pfx content = some r →
        r.summary =
          (match searchSummary body with | some sv => pyStrip sv | none => [])) := by
  refine ⟨?_, searchSummary_none_of_no_hash, ?_⟩
  · intro h c v n hne hnl hc1 hc2
    rw [searchSummary_hashhash, trySummaryAt_canonical h c v n hne hnl hc1 hc2]
  · intro pfx content fm body r hsplit hparse
    rw [parse_rule_file, hsplit] at hparse
    dsimp only at hparse
    rcases ht : searchValue (strL "title:") fm with _ | tv
    · rw [ht] at hparse
      cases hparse
    · rcases hi : searchWordValue (strL "impact:") fm with _ | iv
      · rw [ht, hi] at hparse
        cases hparse
      · rw [ht, hi] at hparse
        cases hparse
        rfl

/-- C8 counterexample: for the body with a blank line between the
heading and the text, the parser's summary is `foo`, while the
claim's reading — the line must immediately follow a heading line —
yields the empty summary. -/
theorem c8_counterexample :
    (parse_rule_file (strL "x") c8Doc).map Rule.summary = some (strL "foo")
    ∧ (parse_rule_file (strL "x") c8Doc).map Rule.content = some c8Body
    ∧ claimSummary c8Body = []
    ∧ ¬ ((parse_rule_file (strL "x") c8Doc).map Rule.summary =
          some (claimSummary c8Body)) := by
  decide

/-- C8 witness: the extraction theorem applied at the concrete
heading shape and a heading-free body. -/
theorem c8_summary_extraction_witness :
    searchSummary (strL "## Head\n\nfoo") = some (strL "foo")
    ∧ searchSummary (strL "intro only, no markdown heading") = none := by
  constructor
  · have h := c8_summary_extraction.1 (strL " Head") 'f' (strL "oo") 1
      (by decide) (by decide) (by decide) (by decide)
    have e : strL "## Head\n\nfoo" =
        '#' :: '#' :: (strL " Head" ++ List.replicate (1 + 1) '\n' ++ 'f' :: strL "oo") := by
      decide
    rw [e, h]
    decide
  · exact c8_summary_extraction.2.1 _ (by decide)

/-- C9: no request-handling operation mutates the knowledge base.  In
the state-passing translation of the seven `KnowledgeBase` query
methods, their six tool wrappers and the server dispatcher — each
translated statement by statement, with no statement assigning to
`self` or mutating a structure reachable from it — the returned state
equals the input state on every call. -/
theorem c9_request_ops_preserve_kb (kb : KnowledgeBase)
    (topic query pat language name : List Char)
    (category topicF : Option (List Char)) (args : ToolArgs) :
    (get_rule_by_topic_st kb topic).2 = kb
    ∧ (search_rules_st kb query).2 = kb
    ∧ (list_all_topics_st kb).2 = kb
    ∧ (get_sections_st kb category).2 = kb
    ∧ (get_anti_patterns_st kb topicF).2 = kb
    ∧ (get_code_example_st kb pat language).2 = kb
    ∧ (get_full_guide_st kb).2 = kb
    ∧ (get_best_practice_st kb topic).2 = kb
    ∧ (list_topics_st kb category).2 = kb
    ∧ (search_best_practices_st kb query).2 = kb
    ∧ (get_anti_patterns_tool_st kb topicF).2 = kb
    ∧ (get_code_example_tool_st kb pat language).2 = kb
    ∧ (get_full_guide_tool_st kb).2 = kb
    ∧ (handle_call_tool_st kb name args).2 = kb :=
  ⟨rfl, rfl, rfl, rfl, rfl, rfl, rfl, rfl, rfl, rfl, rfl, rfl, rfl, rfl⟩

/-- C10: for a whitespace-only (or empty) query the public search
tool returns the fixed text and nothing else; yet the underlying
scorer gives every loaded rule a positive score for the empty query,
the empty string being a substring of every title. -/
theorem c10_whitespace_query_guard (kb : KnowledgeBase) (q : List Char) :
    (pyStrip q = [] →
      search_best_practices kb q = strL "Please provide a search query.")
    ∧ (∀ r ∈ ruleValues kb,
        0 < searchScore (pyLower []) (wordSet (pyLower [])) r) := by
  constructor
  · intro h
    simp [search_best_practices, h]
  · intro r _
    have h10 : isSubstr (pyLower []) (pyLower r.title) = true := isSubstr_nil_left _
    rw [searchScore, if_pos h10]
    omega

/-- C10 witness: the guard applied at a concrete base and a
whitespace query. -/
theorem c10_whitespace_query_guard_witness :
    search_best_practices c10Kb (strL "  ") = strL "Please provide a search query."
    ∧ 0 < searchScore (pyLower []) (wordSet (pyLower [])) c10Rule :=
  ⟨(c10_whitespace_query_guard c10Kb (strL "  ")).1 (by decide),
    (c10_whitespace_query_guard c10Kb (strL "  ")).2 c10Rule (by decide)⟩

end RedisBP
